import Mathlib

/-
Verification development for the DynRPG plugin bundle
(modules: dynamic_quickpatch, limit_break, direct_skills).

Each namespace below is a shallow embedding of one module's core state and
operations, translated from the corresponding C++ source files.  Machine
integers are modelled as `Int`/`Nat` (with explicit `% 2^w` where a C cast
truncates), host memory as a function `Nat → Nat` (one byte per address),
and the C++ `std::map` tables as Lean functions into `Option`.
-/

namespace DynamicQuickPatch

/-- Upper bound used by the plugin's address validation (`0xFFFFFFFF`). -/
def ADDR_LIMIT : Nat := 4294967295

/-- Minimum value for 8-bit signed integers (`DQP_INT8_MIN` in the source). -/
def DQP_INT8_MIN : Int := -127

/-- Maximum value for 8-bit signed integers (`DQP_INT8_MAX` in the source). -/
def DQP_INT8_MAX : Int := 127

/-- Patch type enumeration `DynamicQuickPatchConfig::QuickPatchType`. -/
inductive QuickPatchType where
  | QPTYPE_8BIT
  | QPTYPE_32BIT
  | QPTYPE_HEX_RAW
deriving DecidableEq

/-- One entry of `DynamicQuickPatchConfig::getMappings()`.  The `hexValue`
string of the source is modelled by its decoded payload bytes (the source
writes `hexString.length()/2` bytes, one per hex pair), so
`hexValue.length` here equals `hexString.length()/2` there. -/
structure QuickPatchMapping where
  variableId : Int
  address : Nat
  type : QuickPatchType
  hexValue : List Nat
  applyOnLoadGame : Bool
deriving DecidableEq

/-- Mutable state of the module: the host's memory bytes and the
`originalMemoryValues` shadow table (address ↦ captured original bytes). -/
structure DQPState where
  mem : Nat → Nat
  shadow : Nat → Option (List Nat)

/-- Reading `length` consecutive bytes starting at `address`. -/
def readBytes (mem : Nat → Nat) (address length : Nat) : List Nat :=
  (List.range length).map (fun i => mem (address + i))

/-- Writing the byte list `bytes` at `address`; other addresses keep their
old content. -/
def writeBytes (mem : Nat → Nat) (address : Nat) (bytes : List Nat) : Nat → Nat :=
  fun a => if address ≤ a ∧ a - address < bytes.length then bytes.getD (a - address) 0 else mem a

/-- `hasOriginalValues(address, length)`: the shadow table has an entry for
`address` whose stored vector holds at least `length` bytes. -/
def hasOriginalValues (s : DQPState) (address length : Nat) : Bool :=
  match s.shadow address with
  | none => false
  | some v => decide (length ≤ v.length)

/-- `storeOriginalValues(address, length)`: capture the current `length`
bytes at `address` into the shadow table, unless an entry of at least that
size already exists or the address fails validation
(`address == 0 || address >= 0xFFFFFFFF - length`). -/
def storeOriginalValues (s : DQPState) (address length : Nat) : DQPState :=
  if hasOriginalValues s address length then s
  else if address = 0 ∨ ADDR_LIMIT - length ≤ address then s
  else { s with
         shadow := fun a =>
           if a = address then some (readBytes s.mem address length) else s.shadow a }

/-- `restoreOriginalValues(address)`: copy the shadowed bytes back into
memory.  Returns the success flag together with the new state. -/
def restoreOriginalValues (s : DQPState) (address : Nat) : Bool × DQPState :=
  match s.shadow address with
  | none => (false, s)
  | some bytes =>
    if address = 0 ∨ ADDR_LIMIT - bytes.length ≤ address then (false, s)
    else (true, { s with mem := writeBytes s.mem address bytes })

/-- The byte stored by the C cast `*(char*)address = (char)value;`
(truncation of a signed int to its low 8 bits, read back as unsigned). -/
def byteOfInt (v : Int) : Nat := (v % 256).toNat

/-- Little-endian byte decomposition written by `*(int*)address = value;`
on the 32-bit host. -/
def int32Bytes (v : Int) : List Nat :=
  let u := (v % 4294967296).toNat
  [u % 256, u / 256 % 256, u / 65536 % 256, u / 16777216 % 256]

/-- `write8bitValue(address, value)`: validate the address, capture the
original byte on first write, then store one byte. -/
def write8bitValue (s : DQPState) (address : Nat) (value : Int) : DQPState :=
  if address = 0 ∨ ADDR_LIMIT ≤ address then s
  else
    let s1 := if hasOriginalValues s address 1 then s else storeOriginalValues s address 1
    { s1 with mem := writeBytes s1.mem address [byteOfInt value] }

/-- `write32bitValue(address, value)`: validate the address, capture the
original four bytes on first write, then store four bytes. -/
def write32bitValue (s : DQPState) (address : Nat) (value : Int) : DQPState :=
  if address = 0 ∨ ADDR_LIMIT - 4 ≤ address then s
  else
    let s1 := if hasOriginalValues s address 4 then s else storeOriginalValues s address 4
    { s1 with mem := writeBytes s1.mem address (int32Bytes value) }

/-- `writeHexValue(address, hexString)`: the original bytes are captured
before the address validation (mirroring the statement order in the
source), then the payload is copied byte for byte. -/
def writeHexValue (s : DQPState) (address : Nat) (payload : List Nat) : DQPState :=
  let byteCount := payload.length
  let s1 := if hasOriginalValues s address byteCount then s
            else storeOriginalValues s address byteCount
  if address = 0 ∨ ADDR_LIMIT - byteCount ≤ address then s1
  else { s1 with mem := writeBytes s1.mem address payload }

/-- `updateQuickPatch(mapping, value)`: value `0` on a raw-hex patch
restores the shadowed bytes (if any) and leaves the patch inactive; for
`8bit` the value is clamped to `[-127, 127]` before the write; `32bit`
writes the value directly; `hex` writes the configured payload.
(`validateValue` only logs and never changes state, so it is omitted.) -/
def updateQuickPatch (mapping : QuickPatchMapping) (value : Int) (s : DQPState) : DQPState :=
  if value = 0 ∧ mapping.type = QuickPatchType.QPTYPE_HEX_RAW then
    let size := mapping.hexValue.length
    if hasOriginalValues s mapping.address size then
      (restoreOriginalValues s mapping.address).2
    else s
  else
    match mapping.type with
    | QuickPatchType.QPTYPE_8BIT =>
      let adjustedValue := max DQP_INT8_MIN (min DQP_INT8_MAX value)
      write8bitValue s mapping.address adjustedValue
    | QuickPatchType.QPTYPE_32BIT =>
      write32bitValue s mapping.address value
    | QuickPatchType.QPTYPE_HEX_RAW =>
      writeHexValue s mapping.address mapping.hexValue

/-- `onSetVariable(id, value)`: apply `updateQuickPatch` to every mapping
bound to the variable `id`, in configuration order. -/
def onSetVariable (mappings : List QuickPatchMapping) (id value : Int) (s : DQPState) : DQPState :=
  mappings.foldl (fun acc m => if m.variableId = id then updateQuickPatch m value acc else acc) s

/-- Patch size computed in `onNewGame`'s `switch` (1, 4, or the payload
length). -/
def patchSize (m : QuickPatchMapping) : Nat :=
  match m.type with
  | QuickPatchType.QPTYPE_8BIT => 1
  | QuickPatchType.QPTYPE_32BIT => 4
  | QuickPatchType.QPTYPE_HEX_RAW => m.hexValue.length

/-- The restoration loop of `onNewGame`: walk the mappings, skipping
addresses already processed, and restore each first-seen address whose
shadow covers that mapping's size. -/
def onNewGameGo (processed : List Nat) (ms : List QuickPatchMapping) (s : DQPState) : DQPState :=
  match ms with
  | [] => s
  | m :: rest =>
    if m.address ∈ processed then onNewGameGo processed rest s
    else
      let s' := if hasOriginalValues s m.address (patchSize m) then
                  (restoreOriginalValues s m.address).2
                else s
      onNewGameGo (m.address :: processed) rest s'

/-- `onNewGame()`: restore every unique mapped address from its shadow,
then clear the whole shadow table. -/
def onNewGame (mappings : List QuickPatchMapping) (s : DQPState) : DQPState :=
  let t := onNewGameGo [] mappings s
  { t with shadow := fun _ => none }

/-- A session's worth of intercepted variable writes, applied through
`onSetVariable` in order. -/
def runSession (mappings : List QuickPatchMapping) (events : List (Int × Int)) (s : DQPState) : DQPState :=
  events.foldl (fun acc e => onSetVariable mappings e.1 e.2 acc) s

/-- The signed value of a stored byte, as read back through `char`. -/
def sint8 (b : Nat) : Int := if b < 128 then (b : Int) else (b : Int) - 256

/-- The shared shape of the three write functions after their address
guards pass: capture the original bytes if not yet covered, then write. -/
def storeWrite (s : DQPState) (address length : Nat) (bytes : List Nat) : DQPState :=
  let s1 := if hasOriginalValues s address length then s else storeOriginalValues s address length
  { s1 with mem := writeBytes s1.mem address bytes }

/-- The byte list each mapping type writes for a given variable value
(the clamped byte, the four little-endian bytes, or the raw payload). -/
def patchBytes (m : QuickPatchMapping) (value : Int) : List Nat :=
  match m.type with
  | QuickPatchType.QPTYPE_8BIT => [byteOfInt (max DQP_INT8_MIN (min DQP_INT8_MAX value))]
  | QuickPatchType.QPTYPE_32BIT => int32Bytes value
  | QuickPatchType.QPTYPE_HEX_RAW => m.hexValue

/-- The byte a value-0 update is supposed to leave at offset `j` of a
mapping's region, relative to the pre-call state `s`: the shadowed
original byte for a raw-hex patch, a literal zero for the numeric
types. -/
def zeroValueByte (s : DQPState) (m : QuickPatchMapping) (j : Nat) : Nat :=
  match m.type with
  | QuickPatchType.QPTYPE_HEX_RAW => ((s.shadow m.address).getD []).getD j 0
  | _ => 0

/-- The byte region a mapping's write touches. -/
def inRegion (m : QuickPatchMapping) (a : Nat) : Prop :=
  m.address ≤ a ∧ a < m.address + patchSize m

instance (m : QuickPatchMapping) (a : Nat) : Decidable (inRegion m a) := by
  unfold inRegion; infer_instance

/-- Well-formedness of a mapping table: valid non-zero addresses with
positive sizes, equal sizes for mappings sharing an address, and disjoint
regions for mappings at distinct addresses. -/
def GoodConfig (ms : List QuickPatchMapping) : Prop :=
  (∀ m ∈ ms, m.address ≠ 0 ∧ m.address + patchSize m < ADDR_LIMIT ∧ 0 < patchSize m) ∧
  (∀ m ∈ ms, ∀ m' ∈ ms, m.address = m'.address → patchSize m = patchSize m') ∧
  (∀ m ∈ ms, ∀ m' ∈ ms, m.address ≠ m'.address →
    m.address + patchSize m ≤ m'.address ∨ m'.address + patchSize m' ≤ m.address)

instance (ms : List QuickPatchMapping) : Decidable (GoodConfig ms) := by
  unfold GoodConfig
  infer_instance

/-- Session invariant relative to the session-start state `s0`: memory
outside every mapping region is untouched, every shadow entry at a mapping
address holds that region's original bytes, and regions without a shadow
still hold their original bytes. -/
def OrigInv (s0 s : DQPState) (ms : List QuickPatchMapping) : Prop :=
  (∀ a, (∀ m ∈ ms, ¬ inRegion m a) → s.mem a = s0.mem a) ∧
  (∀ m ∈ ms, ∀ v, s.shadow m.address = some v →
    v = readBytes s0.mem m.address (patchSize m)) ∧
  (∀ m ∈ ms, s.shadow m.address = none →
    readBytes s.mem m.address (patchSize m) = readBytes s0.mem m.address (patchSize m))

end DynamicQuickPatch

namespace LimitBreakCalculate

/-- Exact-rational stand-in for a C++ `float`, represented as the value
`num / den` (with `den > 0` assumed by every lemma).  The float
arithmetic of the meter formulas is modelled as exact rational
arithmetic; this is exact for the multiplier/HP magnitudes the plugin
works with and keeps every definition computable. -/
structure Frac where
  num : Int
  den : Int
deriving DecidableEq

/-- Exact float addition `a + b` on the rational representation. -/
def Frac.add (a b : Frac) : Frac := ⟨a.num * b.den + b.num * a.den, a.den * b.den⟩

/-- The float literal `1.0f`. -/
def Frac.one : Frac := ⟨1, 1⟩

/-- The truncating C cast `static_cast<int>(x * multiplier)`: for
`den > 0` the exact value of `x·num/den` truncated toward zero is
`Int.tdiv (x * num) den`. -/
def castMulTrunc (x : Int) (m : Frac) : Int := Int.tdiv (x * m.num) m.den

/-- `getEquipmentMultiplier(actor)`: start from 1.0, add the configured
contribution of each of the five equipped item ids that is `> 0`, and
clamp the result below by `0.0` (`std::max(0.0f, multiplier)`; with a
positive denominator a value is negative iff its numerator is). -/
def getEquipmentMultiplier (equipIds : List Int)
    (equipmentMultipliers : Int → Option Frac) : Frac :=
  let multiplier := equipIds.foldl
    (fun acc equipId =>
      if 0 < equipId then
        match equipmentMultipliers equipId with
        | some f => Frac.add acc f
        | none => acc
      else acc) Frac.one
  if multiplier.num < 0 then ⟨0, 1⟩ else multiplier

/-- `LimitBreakConfig::getActorMode(actorId)`: `-1` when the actor has no
configuration or the mode variable is negative, the variable's value when
it lies in `0..4`, and the configured default mode otherwise. -/
def getActorMode (hasConfig : Bool) (modeVar defaultMode : Int) : Int :=
  if !hasConfig then -1
  else if modeVar < 0 then -1
  else if 0 ≤ modeVar ∧ modeVar ≤ 4 then modeVar
  else defaultMode

/-- `applyLimitGain(battler, percentGain)` for an actor battler: bail out
without a configuration or with a negative mode, otherwise add
`static_cast<int>(percentGain * multiplier)` to the meter variable and
clamp the sum at 100 (`current = std::min(100, current + adjustedGain)`).
The equipment multiplier recomputed inside the source function is the
`multiplier` argument here (the actor's equipment does not change in
between). -/
def applyLimitGain (hasConfig : Bool) (mode : Int) (multiplier : Frac)
    (meter percentGain : Int) : Int :=
  if !hasConfig then meter
  else if mode < 0 then meter
  else min 100 (meter + castMulTrunc percentGain multiplier)

/-- One `preHP` entry for a battler: the snapshot HP, the current HP and
the battler's max HP. -/
structure HPEntry where
  before : Int
  after : Int
  maxHp : Int
deriving DecidableEq

/-- `std::max(0, after - before)` — healing received by a target. -/
def healingOf (t : HPEntry) : Int := max 0 (t.after - t.before)

/-- `std::max(0, before - after)` — damage taken by a target. -/
def damageOf (t : HPEntry) : Int := max 0 (t.before - t.after)

/-- Total healing accumulated by `checkActorHealing`'s loop (only targets
with positive healing contribute). -/
def totalHealing (ts : List HPEntry) : Int :=
  ts.foldl (fun acc t => if 0 < healingOf t then acc + healingOf t else acc) 0

/-- Summed max HP of the healed targets, as accumulated by the same loop. -/
def totalMaxHP (ts : List HPEntry) : Int :=
  ts.foldl (fun acc t => if 0 < healingOf t then acc + t.maxHp else acc) 0

/-- The `healingFound` flag of `checkActorHealing`. -/
def healingFound (ts : List HPEntry) : Bool := ts.any (fun t => 0 < healingOf t)

/-- The `damageFound` flag of `checkActorDamageToMonsters`. -/
def damageFound (ts : List HPEntry) : Bool := ts.any (fun t => 0 < damageOf t)

/-- The healer gain `static_cast<int>((totalHealing * 16.0f) / totalMaxHP
* multiplier)` computed exactly: the expression's rational value is
`(h·16·num) / (MaxH·den)`, truncated toward zero. -/
def healerGain (ts : List HPEntry) (m : Frac) : Int :=
  Int.tdiv (totalHealing ts * 16 * m.num) (totalMaxHP ts * m.den)

/-- `checkActorHealing()` for the acting actor, given its mode, equipment
multiplier and the actor entries of `preHP`: in Healer mode (3), when some
target was healed and the summed target max HP is positive and the gain is
positive, apply the gain through `applyLimitGain` (which scales by the
multiplier a second time). -/
def checkActorHealing (hasConfig : Bool) (mode : Int) (multiplier : Frac)
    (ts : List HPEntry) (meter : Int) : Int :=
  if mode ≠ 3 then meter
  else if healingFound ts ∧ 0 < totalMaxHP ts then
    let gain := healerGain ts multiplier
    if 0 < gain then applyLimitGain hasConfig mode multiplier meter gain else meter
  else meter

/-- Per-monster gain of `checkActorDamageToMonsters`:
`std::min(16, static_cast<int>((damage * 30.0f) / targetMaxHP * multiplier))`,
again with the float expression evaluated exactly. -/
def warriorTargetGain (multiplier : Frac) (damage targetMaxHP : Int) : Int :=
  min 16 (Int.tdiv (damage * 30 * multiplier.num) (targetMaxHP * multiplier.den))

/-- `checkActorDamageToMonsters()` for the acting actor: in Warrior (1) or
Knight (4) mode, with a positive own max HP and some damaged monster, sum
the per-target capped gains over the damaged monsters (targets with
non-positive max HP contribute nothing) and, if positive, apply the total
through `applyLimitGain`. -/
def checkActorDamageToMonsters (hasConfig : Bool) (mode : Int) (actorMaxHp : Int)
    (multiplier : Frac) (ts : List HPEntry) (meter : Int) : Int :=
  if mode ≠ 1 ∧ mode ≠ 4 then meter
  else if actorMaxHp ≤ 0 then meter
  else if damageFound ts then
    let totalGainPercent := ts.foldl
      (fun acc t =>
        if 0 < damageOf t then
          (if 0 < t.maxHp then acc + warriorTargetGain multiplier (damageOf t) t.maxHp else acc)
        else acc) 0
    if 0 < totalGainPercent then
      applyLimitGain hasConfig mode multiplier meter totalGainPercent
    else meter
  else meter

/-- The all-at-max scan of `updateUltimateLimitBar`, with the `break`:
returns the `allConfiguredActorsAtMax` flag and the value of
`configuredActorCount` at loop exit (the scan stops at the first
configured member below 100, counting it). -/
def allMaxCount (actorConfig : Int → Option Int) (vars : Int → Int) :
    List Int → Bool × Nat
  | [] => (true, 0)
  | actorId :: rest =>
    match actorConfig actorId with
    | none => allMaxCount actorConfig vars rest
    | some limitVarId =>
      if vars limitVarId < 100 then (false, 1)
      else
        let r := allMaxCount actorConfig vars rest
        (r.1, r.2 + 1)

/-- `updateUltimateLimitBar()`:  `none` when the ultimate system is
disabled (`ultimateLimitVarId <= 0`), otherwise `some v` where `v` is the
value written to the ultimate meter variable.  The party is the packed
list of member actor ids (`RPG::Actor::partyMember(i)`, contiguous, at
most 4); the two scans run over battle positions `0 ..
requiredPartySize-1`, i.e. over `party.take requiredPartySize`. -/
def updateUltimateLimitBar (ultimateLimitVarId : Int) (useFourActorsForUltimate : Bool)
    (party : List Int) (actorConfig : Int → Option Int) (vars : Int → Int) : Option Int :=
  if ultimateLimitVarId ≤ 0 then none
  else
    let requiredPartySize : Nat := if useFourActorsForUltimate then 4 else 3
    if party.length < requiredPartySize then some 0
    else
      let firstSlots := party.take requiredPartySize
      let totalLimitValue := firstSlots.foldl
        (fun acc actorId =>
          match actorConfig actorId with
          | some limitVarId => acc + vars limitVarId
          | none => acc) 0
      let ultimateValue := Int.tdiv totalLimitValue (requiredPartySize : Int)
      let scan := allMaxCount actorConfig vars firstSlots
      let ultimateValue2 :=
        if scan.1 ∧ 0 < scan.2 ∧ scan.2 = requiredPartySize then 100 else ultimateValue
      some (min 100 (max 0 ultimateValue2))

/-- Ultimate value following the words of the claim (refinement
comparison only; the source is `updateUltimateLimitBar` above): below the
required size the meter is 0; otherwise it is the floor of the sum of ALL
configured party members' meters over `N`, forced to 100 exactly when the
number of configured party slots equals `N` and every configured member's
meter is at 100. -/
def ultimateValueClaimed (useFourActorsForUltimate : Bool) (party : List Int)
    (actorConfig : Int → Option Int) (vars : Int → Int) : Int :=
  let requiredPartySize : Nat := if useFourActorsForUltimate then 4 else 3
  if party.length < requiredPartySize then 0
  else if party.countP (fun a => (actorConfig a).isSome) = requiredPartySize ∧
      party.all (fun a =>
        match actorConfig a with
        | some v => vars v = 100
        | none => true) then 100
  else Int.tdiv (party.foldl
    (fun acc a =>
      match actorConfig a with
      | some v => acc + vars v
      | none => acc) 0) (requiredPartySize : Int)

/-- The claim's formula amended to range over the first `N` party slots
only (the battle positions the source actually scans). -/
def ultimateValueAmended (useFourActorsForUltimate : Bool) (party : List Int)
    (actorConfig : Int → Option Int) (vars : Int → Int) : Int :=
  let requiredPartySize : Nat := if useFourActorsForUltimate then 4 else 3
  if party.length < requiredPartySize then 0
  else
    let firstSlots := party.take requiredPartySize
    if firstSlots.countP (fun a => (actorConfig a).isSome) = requiredPartySize ∧
        firstSlots.all (fun a =>
          match actorConfig a with
          | some v => vars v = 100
          | none => true) then 100
    else Int.tdiv (firstSlots.foldl
      (fun acc a =>
        match actorConfig a with
        | some v => acc + vars v
        | none => acc) 0) (requiredPartySize : Int)

/-- Meter effect of the Limit swap branch of `LimitBreak::onDoBattlerAction`:
when the acting actor's first command is the Limit command, the pending
action is a basic (double) attack, the actor is configured and its meter
is at least 100, the meter variable is reset to exactly 0; otherwise it is
left alone. -/
def limitActionMeter (isLimitCommand isBasicAttack hasConfig : Bool) (meter : Int) : Int :=
  if isLimitCommand ∧ isBasicAttack ∧ hasConfig ∧ 100 ≤ meter then 0 else meter

end LimitBreakCalculate

namespace DirectSkills

/-- The host scenes a frame callback can observe (`RPG::Scene`). -/
inductive Scene where
  | map
  | menu
  | shop
  | battle
  | title
  | other
deriving DecidableEq

/-- Action kinds referenced by the module (`RPG::AK_BASIC`, `RPG::AK_SKILL`);
every other member of the host enum is collapsed into `other`, which the
module only ever compares against. -/
inductive ActionKind where
  | basic
  | skill
  | other
deriving DecidableEq

/-- Basic action ids referenced by the module (`RPG::BA_ATTACK`,
`RPG::BA_DOUBLE_ATTACK`); the rest collapse into `other`. -/
inductive BasicAction where
  | attack
  | doubleAttack
  | other
deriving DecidableEq

/-- Skill target kinds (`RPG::SKILL_TARGET_*`); unknown values collapse
into `other` and are mapped to a single monster by the rewriter. -/
inductive SkillTargetKind where
  | enemy
  | allEnemies
  | self
  | ally
  | allAllies
  | other
deriving DecidableEq

/-- Action target kinds written by the rewriter (`RPG::TARGET_*`). -/
inductive ActionTargetKind where
  | monster
  | allMonsters
  | actor
  | allActors
deriving DecidableEq

/-- The pending `RPG::Action` fields the module reads or writes. -/
structure Action where
  kind : ActionKind
  basicActionId : BasicAction
  skillId : Int
  target : ActionTargetKind
  targetId : Int
deriving DecidableEq

/-- `getSkillIdForCommand(commandId)`: a positive stored value is a direct
skill id; a negative one is the negated id of a variable holding the skill
id, falling back to the configured default when the variable's content is
not positive; anything else yields 0. -/
def getSkillIdForCommand (commandToSkillMap defaultSkillMap : Int → Option Int)
    (rpgVariables : Int → Int) (commandId : Int) : Int :=
  match commandToSkillMap commandId with
  | none => 0
  | some value =>
    if 0 < value then value
    else if value < 0 then
      let varId := -value
      let variableValue := rpgVariables varId
      if 0 < variableValue then variableValue
      else
        match defaultSkillMap commandId with
        | some d => d
        | none => 0
    else 0

/-- `DirectSkills::onDoBattlerAction(battler, firstTry)`: the returned
flag (always `true`) together with the pending action after the call. -/
def onDoBattlerAction (commandToSkillMap defaultSkillMap : Int → Option Int)
    (rpgVariables : Int → Int) (skills : Int → SkillTargetKind)
    (actorCommandMap : Int → Option Int) (isMonster : Bool) (actorId : Int)
    (firstTry : Bool) (action : Option Action) : Bool × Option Action :=
  if !firstTry || isMonster then (true, action)
  else
    match action with
    | none => (true, action)
    | some a =>
      if ¬(a.kind = ActionKind.basic ∧
            (a.basicActionId = BasicAction.attack ∨
             a.basicActionId = BasicAction.doubleAttack)) then (true, action)
      else
        match actorCommandMap actorId with
        | none => (true, action)
        | some storedCommandId =>
          match commandToSkillMap storedCommandId with
          | none => (true, action)
          | some _ =>
            let skillId := getSkillIdForCommand commandToSkillMap defaultSkillMap
              rpgVariables storedCommandId
            if 0 < skillId then
              let base := { a with kind := ActionKind.skill, skillId := skillId }
              let a2 :=
                match skills skillId with
                | SkillTargetKind.enemy => { base with target := ActionTargetKind.monster }
                | SkillTargetKind.allEnemies => { base with target := ActionTargetKind.allMonsters }
                | SkillTargetKind.self =>
                  { base with target := ActionTargetKind.actor, targetId := actorId }
                | SkillTargetKind.ally => { base with target := ActionTargetKind.actor }
                | SkillTargetKind.allAllies => { base with target := ActionTargetKind.allActors }
                | SkillTargetKind.other => { base with target := ActionTargetKind.monster }
              (true, some a2)
            else (true, action)

/-- Module state of the Command-Selection Tracker: the per-actor table of
the last highlighted command (`actorCommandMap`) and the per-actor last
logged command (`lastLoggedCommandMap`, debug bookkeeping). -/
structure DSState where
  actorCommandMap : Int → Option Int
  lastLoggedCommandMap : Int → Option Int

/-- The acting hero as seen by the frame callback
(`RPG::battleData->currentHero`). -/
structure Hero where
  isMonster : Bool
  actorId : Int
  battleCommands : Option (List Int)
deriving DecidableEq

/-- Input of one frame callback: the scene, whether `RPG::battleData` and
its command window exist, the current hero, and the selected command
window slot. -/
structure FrameInput where
  scene : Scene
  battleDataExists : Bool
  currentHero : Option Hero
  selection : Int
deriving DecidableEq

/-- `DirectSkills::onFrame(scene)`: record the command id under the
current selection for the acting actor when the scene is a battle, the
battle data and command window exist, the hero is an actor with a non-null
command array, the selection index is in `[0, 3]` and the command id read
from that slot is positive; update the debug log table on change. -/
def onFrame (inp : FrameInput) (st : DSState) : DSState :=
  if inp.scene ≠ Scene.battle then st
  else if !inp.battleDataExists then st
  else
    match inp.currentHero with
    | none => st
    | some hero =>
      if hero.isMonster then st
      else
        match hero.battleCommands with
        | none => st
        | some cmds =>
          if inp.selection < 0 ∨ 4 ≤ inp.selection then st
          else
            let commandId := cmds.getD inp.selection.toNat 0
            if commandId ≤ 0 then st
            else
              let st1 := { st with
                actorCommandMap := fun i =>
                  if i = hero.actorId then some commandId else st.actorCommandMap i }
              if (st.lastLoggedCommandMap hero.actorId).getD 0 ≠ commandId then
                { st1 with
                  lastLoggedCommandMap := fun i =>
                    if i = hero.actorId then some commandId
                    else st1.lastLoggedCommandMap i }
              else st1

/-- The write condition of `onFrame` and the pair it stores: `some
(actorId, commandId)` exactly when the frame writes the selection table. -/
def frameWrite (inp : FrameInput) : Option (Int × Int) :=
  if inp.scene ≠ Scene.battle then none
  else if !inp.battleDataExists then none
  else
    match inp.currentHero with
    | none => none
    | some hero =>
      if hero.isMonster then none
      else
        match hero.battleCommands with
        | none => none
        | some cmds =>
          if inp.selection < 0 ∨ 4 ≤ inp.selection then none
          else
            let commandId := cmds.getD inp.selection.toNat 0
            if commandId ≤ 0 then none
            else some (hero.actorId, commandId)

/-- `DirectSkills::onBattlerActionDone(battler, success)` deliberately
keeps the command mapping: the module state is unchanged. -/
def onBattlerActionDoneState (st : DSState) : DSState := st

/-- The module exports no `onNewGame` callback (`direct_skills/main.cpp`
defines only `onStartup`, `onExit`, `onFrame`, `onDoBattlerAction` and
`onBattlerActionDone`), so a new-game event invokes nothing of this
module and leaves its state unchanged. -/
def onNewGameState (st : DSState) : DSState := st

end DirectSkills

/- ===================== basic lemmas: memory primitives ===================== -/

namespace DynamicQuickPatch

theorem writeBytes_outside (mem : Nat → Nat) (address : Nat) (bytes : List Nat) (a : Nat)
    (h : a < address ∨ address + bytes.length ≤ a) :
    writeBytes mem address bytes a = mem a := by
  unfold writeBytes
  rw [if_neg]
  omega

theorem writeBytes_inside (mem : Nat → Nat) (address : Nat) (bytes : List Nat) (j : Nat)
    (h : j < bytes.length) :
    writeBytes mem address bytes (address + j) = bytes.getD j 0 := by
  unfold writeBytes
  rw [if_pos (by omega), Nat.add_sub_cancel_left]

theorem readBytes_length (mem : Nat → Nat) (address length : Nat) :
    (readBytes mem address length).length = length := by
  simp [readBytes]

theorem readBytes_getD (mem : Nat → Nat) (address length j : Nat) (h : j < length) :
    (readBytes mem address length).getD j 0 = mem (address + j) := by
  unfold readBytes
  rw [List.getD_eq_getElem _ _ (by simpa using h)]
  simp

theorem readBytes_congr (mem1 mem2 : Nat → Nat) (address length : Nat)
    (h : ∀ j < length, mem1 (address + j) = mem2 (address + j)) :
    readBytes mem1 address length = readBytes mem2 address length := by
  unfold readBytes
  apply List.map_congr_left
  intro i hi
  exact h i (List.mem_range.mp hi)

theorem readBytes_writeBytes_self (mem : Nat → Nat) (address : Nat) (bytes : List Nat) :
    readBytes (writeBytes mem address bytes) address bytes.length = bytes := by
  apply List.ext_getElem (by simp [readBytes_length])
  intro i h1 h2
  have h3 : i < bytes.length := by simpa [readBytes_length] using h1
  unfold readBytes
  simp only [List.getElem_map, List.getElem_range]
  rw [writeBytes_inside _ _ _ _ h3, List.getD_eq_getElem _ _ h3]

theorem readBytes_writeBytes_disjoint (mem : Nat → Nat) (a1 : Nat) (bytes : List Nat)
    (a2 length : Nat) (h : a2 + length ≤ a1 ∨ a1 + bytes.length ≤ a2) :
    readBytes (writeBytes mem a1 bytes) a2 length = readBytes mem a2 length := by
  apply readBytes_congr
  intro j hj
  apply writeBytes_outside
  omega

end DynamicQuickPatch

/- ===================== lemmas: shadow capture and restore ===================== -/

namespace DynamicQuickPatch

theorem hasOriginalValues_none (s : DQPState) (address length : Nat)
    (h : s.shadow address = none) : hasOriginalValues s address length = false := by
  unfold hasOriginalValues
  rw [h]

theorem hasOriginalValues_some (s : DQPState) (address length : Nat) (v : List Nat)
    (h : s.shadow address = some v) :
    hasOriginalValues s address length = decide (length ≤ v.length) := by
  unfold hasOriginalValues
  rw [h]

theorem storeOriginalValues_eq (s : DQPState) (address length : Nat)
    (hhas : hasOriginalValues s address length = false)
    (h0 : address ≠ 0) (hlim : address + length < ADDR_LIMIT) :
    storeOriginalValues s address length =
      { s with shadow := fun a =>
          if a = address then some (readBytes s.mem address length) else s.shadow a } := by
  unfold storeOriginalValues
  rw [hhas]
  simp only [Bool.false_eq_true, if_false]
  rw [if_neg (by omega)]

theorem restoreOriginalValues_eq (s : DQPState) (address : Nat) (v : List Nat)
    (hsh : s.shadow address = some v)
    (h0 : address ≠ 0) (hlim : address + v.length < ADDR_LIMIT) :
    restoreOriginalValues s address =
      (true, { s with mem := writeBytes s.mem address v }) := by
  unfold restoreOriginalValues
  rw [hsh]
  simp only
  rw [if_neg (by omega)]

theorem write8bitValue_eq (s : DQPState) (address : Nat) (value : Int)
    (h0 : address ≠ 0) (hlim : address < ADDR_LIMIT) :
    write8bitValue s address value = storeWrite s address 1 [byteOfInt value] := by
  unfold write8bitValue storeWrite
  rw [if_neg (by omega)]

theorem write32bitValue_eq (s : DQPState) (address : Nat) (value : Int)
    (h0 : address ≠ 0) (hlim : address + 4 < ADDR_LIMIT) :
    write32bitValue s address value = storeWrite s address 4 (int32Bytes value) := by
  unfold write32bitValue storeWrite
  rw [if_neg (by omega)]

theorem writeHexValue_eq (s : DQPState) (address : Nat) (payload : List Nat)
    (h0 : address ≠ 0) (hlim : address + payload.length < ADDR_LIMIT) :
    writeHexValue s address payload = storeWrite s address payload.length payload := by
  unfold writeHexValue storeWrite
  rw [if_neg (by omega)]

end DynamicQuickPatch

/- ===================== lemmas: invariant preservation ===================== -/

namespace DynamicQuickPatch

theorem shadow_some_length (s0 s : DQPState) (ms : List QuickPatchMapping)
    (hinv : OrigInv s0 s ms) (m : QuickPatchMapping) (hm : m ∈ ms) (v : List Nat)
    (hsh : s.shadow m.address = some v) : v.length = patchSize m := by
  have h := hinv.2.1 m hm v hsh
  rw [h, readBytes_length]

theorem restore_preserves (s0 s : DQPState) (ms : List QuickPatchMapping)
    (hcfg : GoodConfig ms) (hinv : OrigInv s0 s ms)
    (m : QuickPatchMapping) (hm : m ∈ ms) (v : List Nat)
    (hsh : s.shadow m.address = some v) :
    OrigInv s0 { s with mem := writeBytes s.mem m.address v } ms ∧
      readBytes (writeBytes s.mem m.address v) m.address (patchSize m) =
        readBytes s0.mem m.address (patchSize m) := by
  have hv := hinv.2.1 m hm v hsh
  have hvlen : v.length = patchSize m := by rw [hv, readBytes_length]
  constructor
  · refine ⟨?_, ?_, ?_⟩
    · intro a ha
      have hout : ¬ inRegion m a := ha m hm
      dsimp only
      rw [writeBytes_outside _ _ _ _ (by unfold inRegion at hout; omega)]
      exact hinv.1 a ha
    · exact hinv.2.1
    · intro m' hm' hsh'
      by_cases heq : m'.address = m.address
      · rw [heq, hsh] at hsh'
        exact absurd hsh' (by simp)
      · have hdisj := hcfg.2.2 m' hm' m hm heq
        rw [readBytes_writeBytes_disjoint _ _ _ _ _ (by omega)]
        exact hinv.2.2 m' hm' hsh'
  · have := readBytes_writeBytes_self s.mem m.address v
    rw [hvlen] at this
    rw [this, hv]

theorem storeWrite_preserves (s0 s : DQPState) (ms : List QuickPatchMapping)
    (hcfg : GoodConfig ms) (hinv : OrigInv s0 s ms)
    (m : QuickPatchMapping) (hm : m ∈ ms) (length : Nat) (hlen : length = patchSize m)
    (bytes : List Nat) (hblen : bytes.length = patchSize m) :
    OrigInv s0 (storeWrite s m.address length bytes) ms := by
  subst hlen
  obtain ⟨h0, hlim, hpos⟩ := hcfg.1 m hm
  by_cases hhas : hasOriginalValues s m.address (patchSize m) = true
  · -- an adequate shadow already exists: only memory inside the region changes
    have hsw : storeWrite s m.address (patchSize m) bytes =
        { s with mem := writeBytes s.mem m.address bytes } := by
      unfold storeWrite
      rw [hhas]
      simp
    rw [hsw]
    obtain ⟨v, hsh⟩ : ∃ v, s.shadow m.address = some v := by
      unfold hasOriginalValues at hhas
      rcases h : s.shadow m.address with _ | v
      · rw [h] at hhas; simp at hhas
      · exact ⟨v, rfl⟩
    refine ⟨?_, hinv.2.1, ?_⟩
    · intro a ha
      have hout : ¬ inRegion m a := ha m hm
      dsimp only
      rw [writeBytes_outside _ _ _ _ (by unfold inRegion at hout; omega)]
      exact hinv.1 a ha
    · intro m' hm' hsh'
      by_cases heq : m'.address = m.address
      · rw [heq, hsh] at hsh'
        exact absurd hsh' (by simp)
      · have hdisj := hcfg.2.2 m' hm' m hm heq
        rw [readBytes_writeBytes_disjoint _ _ _ _ _ (by omega)]
        exact hinv.2.2 m' hm' hsh'
  · -- first (or under-sized) shadow: under the invariant this means no shadow yet
    have hhasF : hasOriginalValues s m.address (patchSize m) = false := by
      simpa using hhas
    have hsh : s.shadow m.address = none := by
      rcases h : s.shadow m.address with _ | v
      · rfl
      · have := shadow_some_length s0 s ms hinv m hm v h
        rw [hasOriginalValues_some s _ _ v h] at hhasF
        simp [this] at hhasF
    have hsw : storeWrite s m.address (patchSize m) bytes =
        { s with
          mem := writeBytes s.mem m.address bytes,
          shadow := fun a =>
            if a = m.address then some (readBytes s.mem m.address (patchSize m))
            else s.shadow a } := by
      unfold storeWrite
      rw [hhasF]
      simp only [Bool.false_eq_true, if_false]
      rw [storeOriginalValues_eq s _ _ hhasF h0 hlim]
    rw [hsw]
    refine ⟨?_, ?_, ?_⟩
    · intro a ha
      have hout : ¬ inRegion m a := ha m hm
      dsimp only
      rw [writeBytes_outside _ _ _ _ (by unfold inRegion at hout; omega)]
      exact hinv.1 a ha
    · intro m' hm' v' hsh'
      simp only at hsh'
      by_cases heq : m'.address = m.address
      · rw [if_pos heq] at hsh'
        have hsz : patchSize m' = patchSize m := hcfg.2.1 m' hm' m hm heq
        have horig := hinv.2.2 m hm hsh
        cases hsh'
        rw [heq, hsz, horig]
      · rw [if_neg heq] at hsh'
        exact hinv.2.1 m' hm' v' hsh'
    · intro m' hm' hsh'
      simp only at hsh'
      by_cases heq : m'.address = m.address
      · rw [if_pos heq] at hsh'
        exact absurd hsh' (by simp)
      · rw [if_neg heq] at hsh'
        have hdisj := hcfg.2.2 m' hm' m hm heq
        rw [readBytes_writeBytes_disjoint _ _ _ _ _ (by omega)]
        exact hinv.2.2 m' hm' hsh'

end DynamicQuickPatch

/- ===================== lemmas: updateQuickPatch and sessions ===================== -/

namespace DynamicQuickPatch

theorem updateQuickPatch_preserves (s0 s : DQPState) (ms : List QuickPatchMapping)
    (hcfg : GoodConfig ms) (hinv : OrigInv s0 s ms)
    (m : QuickPatchMapping) (hm : m ∈ ms) (value : Int) :
    OrigInv s0 (updateQuickPatch m value s) ms := by
  obtain ⟨h0, hlim, hpos⟩ := hcfg.1 m hm
  by_cases hdeact : value = 0 ∧ m.type = QuickPatchType.QPTYPE_HEX_RAW
  · -- raw-hex deactivation: restore from the shadow if present
    have hps : patchSize m = m.hexValue.length := by
      unfold patchSize
      rw [hdeact.2]
    have hupd : updateQuickPatch m value s =
        (if hasOriginalValues s m.address m.hexValue.length = true then
          (restoreOriginalValues s m.address).2 else s) := by
      unfold updateQuickPatch
      rw [if_pos hdeact]
    rw [hupd]
    by_cases hhas : hasOriginalValues s m.address m.hexValue.length = true
    · rw [if_pos hhas]
      obtain ⟨v, hsh⟩ : ∃ v, s.shadow m.address = some v := by
        unfold hasOriginalValues at hhas
        rcases h : s.shadow m.address with _ | v
        · rw [h] at hhas; simp at hhas
        · exact ⟨v, rfl⟩
      have hvlen : v.length = patchSize m := shadow_some_length s0 s ms hinv m hm v hsh
      rw [restoreOriginalValues_eq s m.address v hsh h0 (by omega)]
      exact (restore_preserves s0 s ms hcfg hinv m hm v hsh).1
    · rw [if_neg hhas]
      exact hinv
  · -- an actual write through one of the three typed write functions
    rcases hty : m.type with _ | _ | _
    · have hps : patchSize m = 1 := by unfold patchSize; rw [hty]
      have hupd : updateQuickPatch m value s =
          storeWrite s m.address 1 [byteOfInt (max DQP_INT8_MIN (min DQP_INT8_MAX value))] := by
        unfold updateQuickPatch
        rw [if_neg hdeact, hty]
        exact write8bitValue_eq s m.address _ h0 (by rw [hps] at hlim; omega)
      rw [hupd]
      exact storeWrite_preserves s0 s ms hcfg hinv m hm 1 hps.symm _ (by rw [hps]; rfl)
    · have hps : patchSize m = 4 := by unfold patchSize; rw [hty]
      have hupd : updateQuickPatch m value s =
          storeWrite s m.address 4 (int32Bytes value) := by
        unfold updateQuickPatch
        rw [if_neg hdeact, hty]
        exact write32bitValue_eq s m.address _ h0 (by rw [hps] at hlim; omega)
      rw [hupd]
      exact storeWrite_preserves s0 s ms hcfg hinv m hm 4 hps.symm _ (by rw [hps]; rfl)
    · have hps : patchSize m = m.hexValue.length := by unfold patchSize; rw [hty]
      have hupd : updateQuickPatch m value s =
          storeWrite s m.address m.hexValue.length m.hexValue := by
        unfold updateQuickPatch
        rw [if_neg hdeact, hty]
        exact writeHexValue_eq s m.address _ h0 (by rw [hps] at hlim; omega)
      rw [hupd]
      exact storeWrite_preserves s0 s ms hcfg hinv m hm _ hps.symm _ hps.symm

theorem foldl_update_preserves (s0 : DQPState) (ms : List QuickPatchMapping)
    (hcfg : GoodConfig ms) (id value : Int) :
    ∀ (l : List QuickPatchMapping) (s : DQPState), (∀ m ∈ l, m ∈ ms) → OrigInv s0 s ms →
      OrigInv s0
        (l.foldl (fun acc m => if m.variableId = id then updateQuickPatch m value acc else acc) s)
        ms := by
  intro l
  induction l with
  | nil => intro s _ hinv; exact hinv
  | cons m rest ih =>
    intro s hl hinv
    simp only [List.foldl_cons]
    apply ih _ (fun m' hm' => hl m' (List.mem_cons_of_mem _ hm'))
    by_cases hv : m.variableId = id
    · rw [if_pos hv]
      exact updateQuickPatch_preserves s0 s ms hcfg hinv m (hl m (List.mem_cons_self m rest)) value
    · rw [if_neg hv]
      exact hinv

theorem onSetVariable_preserves (s0 s : DQPState) (ms : List QuickPatchMapping)
    (hcfg : GoodConfig ms) (hinv : OrigInv s0 s ms) (id value : Int) :
    OrigInv s0 (onSetVariable ms id value s) ms :=
  foldl_update_preserves s0 ms hcfg id value ms s (fun _ hm => hm) hinv

theorem runSession_preserves (s0 : DQPState) (ms : List QuickPatchMapping)
    (hcfg : GoodConfig ms) :
    ∀ (events : List (Int × Int)) (s : DQPState), OrigInv s0 s ms →
      OrigInv s0 (runSession ms events s) ms := by
  intro events
  induction events with
  | nil => intro s hinv; exact hinv
  | cons e rest ih =>
    intro s hinv
    unfold runSession
    simp only [List.foldl_cons]
    exact ih _ (onSetVariable_preserves s0 s ms hcfg hinv e.1 e.2)

end DynamicQuickPatch

/- ===================== lemmas: onNewGame restoration ===================== -/

namespace DynamicQuickPatch

theorem onNewGameGo_correct (s0 : DQPState) (ms : List QuickPatchMapping)
    (hcfg : GoodConfig ms) :
    ∀ (rest : List QuickPatchMapping) (processed : List Nat) (s : DQPState),
      (∀ m ∈ rest, m ∈ ms) →
      OrigInv s0 s ms →
      (∀ m ∈ ms, m.address ∈ processed →
        readBytes s.mem m.address (patchSize m) = readBytes s0.mem m.address (patchSize m)) →
      (OrigInv s0 (onNewGameGo processed rest s) ms ∧
        ∀ m ∈ ms, (m.address ∈ processed ∨ m ∈ rest) →
          readBytes (onNewGameGo processed rest s).mem m.address (patchSize m) =
            readBytes s0.mem m.address (patchSize m)) := by
  intro rest
  induction rest with
  | nil =>
    intro processed s _ hinv hdone
    refine ⟨hinv, ?_⟩
    intro m hm hmem
    rcases hmem with h | h
    · exact hdone m hm h
    · exact absurd h (List.not_mem_nil m)
  | cons m rest ih =>
    intro processed s hl hinv hdone
    have hmms : m ∈ ms := hl m (List.mem_cons_self m rest)
    have hrest : ∀ m' ∈ rest, m' ∈ ms := fun m' hm' => hl m' (List.mem_cons_of_mem _ hm')
    obtain ⟨h0, hlim, hpos⟩ := hcfg.1 m hmms
    unfold onNewGameGo
    by_cases hp : m.address ∈ processed
    · rw [if_pos hp]
      obtain ⟨hinv', hdone'⟩ := ih processed s hrest hinv hdone
      refine ⟨hinv', ?_⟩
      intro m' hm' hmem
      apply hdone' m' hm'
      rcases hmem with h | h
      · exact Or.inl h
      · rcases List.mem_cons.mp h with h | h
        · subst h; exact Or.inl hp
        · exact Or.inr h
    · rw [if_neg hp]
      by_cases hhas : hasOriginalValues s m.address (patchSize m) = true
      · rw [hhas]
        simp only [if_true]
        obtain ⟨v, hsh⟩ : ∃ v, s.shadow m.address = some v := by
          unfold hasOriginalValues at hhas
          rcases h : s.shadow m.address with _ | v
          · rw [h] at hhas; simp at hhas
          · exact ⟨v, rfl⟩
        have hvlen : v.length = patchSize m := shadow_some_length s0 s ms hinv m hmms v hsh
        rw [restoreOriginalValues_eq s m.address v hsh h0 (by omega)]
        obtain ⟨hinvR, hreadR⟩ := restore_preserves s0 s ms hcfg hinv m hmms v hsh
        have hdoneR : ∀ m' ∈ ms, m'.address ∈ (m.address :: processed) →
            readBytes (writeBytes s.mem m.address v) m'.address (patchSize m') =
              readBytes s0.mem m'.address (patchSize m') := by
          intro m' hm' hmem
          by_cases heq : m'.address = m.address
          · have hsz : patchSize m' = patchSize m := hcfg.2.1 m' hm' m hmms heq
            rw [heq, hsz]
            exact hreadR
          · have hdisj := hcfg.2.2 m' hm' m hmms heq
            rw [readBytes_writeBytes_disjoint _ _ _ _ _ (by omega)]
            apply hdone m' hm'
            rcases List.mem_cons.mp hmem with h | h
            · exact absurd h heq
            · exact h
        obtain ⟨hinv', hdone'⟩ := ih (m.address :: processed) _ hrest hinvR hdoneR
        refine ⟨hinv', ?_⟩
        intro m' hm' hmem
        apply hdone' m' hm'
        rcases hmem with h | h
        · exact Or.inl (List.mem_cons_of_mem _ h)
        · rcases List.mem_cons.mp h with h | h
          · subst h; exact Or.inl (List.mem_cons_self _ _)
          · exact Or.inr h
      · rw [Bool.not_eq_true] at hhas
        rw [hhas]
        simp only [Bool.false_eq_true, if_false]
        have hsh : s.shadow m.address = none := by
          rcases h : s.shadow m.address with _ | v
          · rfl
          · have := shadow_some_length s0 s ms hinv m hmms v h
            rw [hasOriginalValues_some s _ _ v h] at hhas
            simp [this] at hhas
        have hdoneS : ∀ m' ∈ ms, m'.address ∈ (m.address :: processed) →
            readBytes s.mem m'.address (patchSize m') =
              readBytes s0.mem m'.address (patchSize m') := by
          intro m' hm' hmem
          by_cases heq : m'.address = m.address
          · have hsz : patchSize m' = patchSize m := hcfg.2.1 m' hm' m hmms heq
            rw [heq, hsz]
            exact hinv.2.2 m hmms hsh
          · apply hdone m' hm'
            rcases List.mem_cons.mp hmem with h | h
            · exact absurd h heq
            · exact h
        obtain ⟨hinv', hdone'⟩ := ih (m.address :: processed) s hrest hinv hdoneS
        refine ⟨hinv', ?_⟩
        intro m' hm' hmem
        apply hdone' m' hm'
        rcases hmem with h | h
        · exact Or.inl (List.mem_cons_of_mem _ h)
        · rcases List.mem_cons.mp h with h | h
          · subst h; exact Or.inl (List.mem_cons_self _ _)
          · exact Or.inr h

theorem onNewGame_mem (s0 s : DQPState) (ms : List QuickPatchMapping)
    (hcfg : GoodConfig ms) (hinv : OrigInv s0 s ms) (a : Nat) :
    (onNewGame ms s).mem a = s0.mem a := by
  obtain ⟨hinv', hdone'⟩ :=
    onNewGameGo_correct s0 ms hcfg ms [] s (fun _ hm => hm) hinv
      (by intro m _ h; exact absurd h (List.not_mem_nil _))
  show (onNewGameGo [] ms s).mem a = s0.mem a
  by_cases hreg : ∃ m ∈ ms, inRegion m a
  · obtain ⟨m, hm, hin⟩ := hreg
    have hread := hdone' m hm (Or.inr hm)
    have hj : a - m.address < patchSize m := by unfold inRegion at hin; omega
    have := congrArg (fun l => l.getD (a - m.address) 0) hread
    simp only at this
    rw [readBytes_getD _ _ _ _ hj, readBytes_getD _ _ _ _ hj] at this
    have ha : m.address + (a - m.address) = a := by unfold inRegion at hin; omega
    rw [ha] at this
    exact this
  · push_neg at hreg
    exact hinv'.1 a hreg

theorem onNewGame_shadow (ms : List QuickPatchMapping) (s : DQPState) (a : Nat) :
    (onNewGame ms s).shadow a = none := rfl

end DynamicQuickPatch

/- ===================== lemmas: shadow and memory views of one update ===================== -/

namespace DynamicQuickPatch

theorem restoreOriginalValues_shadow (s : DQPState) (address : Nat) :
    ((restoreOriginalValues s address).2).shadow = s.shadow := by
  unfold restoreOriginalValues
  rcases s.shadow address with _ | v
  · rfl
  · dsimp only
    split
    · rfl
    · rfl

theorem storeOriginalValues_mem (s : DQPState) (address length : Nat) :
    (storeOriginalValues s address length).mem = s.mem := by
  unfold storeOriginalValues
  split
  · rfl
  · split
    · rfl
    · rfl

theorem storeWrite_mem (s : DQPState) (address length : Nat) (bytes : List Nat) :
    (storeWrite s address length bytes).mem = writeBytes s.mem address bytes := by
  unfold storeWrite
  dsimp only
  split
  · rfl
  · rw [storeOriginalValues_mem]

theorem storeWrite_shadow_has (s : DQPState) (address length : Nat) (bytes : List Nat)
    (hhas : hasOriginalValues s address length = true) :
    (storeWrite s address length bytes).shadow = s.shadow := by
  unfold storeWrite
  dsimp only
  rw [if_pos hhas]

theorem storeWrite_shadow_new (s : DQPState) (address length : Nat) (bytes : List Nat)
    (hhas : hasOriginalValues s address length = false)
    (h0 : address ≠ 0) (hlim : address + length < ADDR_LIMIT) :
    (storeWrite s address length bytes).shadow = fun a =>
      if a = address then some (readBytes s.mem address length) else s.shadow a := by
  unfold storeWrite
  dsimp only
  rw [hhas]
  simp only [Bool.false_eq_true, if_false]
  rw [storeOriginalValues_eq s address length hhas h0 hlim]

theorem patchBytes_length (m : QuickPatchMapping) (value : Int) :
    (patchBytes m value).length = patchSize m := by
  unfold patchBytes patchSize
  rcases m.type with _ | _ | _
  · rfl
  · rfl
  · rfl

theorem updateQuickPatch_eq_storeWrite (m : QuickPatchMapping) (value : Int) (s : DQPState)
    (h0 : m.address ≠ 0) (hlim : m.address + patchSize m < ADDR_LIMIT)
    (hdeact : ¬(value = 0 ∧ m.type = QuickPatchType.QPTYPE_HEX_RAW)) :
    updateQuickPatch m value s = storeWrite s m.address (patchSize m) (patchBytes m value) := by
  rcases hty : m.type with _ | _ | _
  · have hps : patchSize m = 1 := by unfold patchSize; rw [hty]
    have hpb : patchBytes m value = [byteOfInt (max DQP_INT8_MIN (min DQP_INT8_MAX value))] := by
      unfold patchBytes; rw [hty]
    rw [hps, hpb]
    unfold updateQuickPatch
    rw [if_neg hdeact, hty]
    exact write8bitValue_eq s m.address _ h0 (by rw [hps] at hlim; omega)
  · have hps : patchSize m = 4 := by unfold patchSize; rw [hty]
    have hpb : patchBytes m value = int32Bytes value := by
      unfold patchBytes; rw [hty]
    rw [hps, hpb]
    unfold updateQuickPatch
    rw [if_neg hdeact, hty]
    exact write32bitValue_eq s m.address _ h0 (by rw [hps] at hlim; omega)
  · have hps : patchSize m = m.hexValue.length := by unfold patchSize; rw [hty]
    have hpb : patchBytes m value = m.hexValue := by
      unfold patchBytes; rw [hty]
    rw [hps, hpb]
    unfold updateQuickPatch
    rw [if_neg hdeact, hty]
    exact writeHexValue_eq s m.address _ h0 (by rw [hps] at hlim; omega)

theorem updateQuickPatch_deact_eq (m : QuickPatchMapping) (s : DQPState)
    (hty : m.type = QuickPatchType.QPTYPE_HEX_RAW) :
    updateQuickPatch m 0 s =
      (if hasOriginalValues s m.address m.hexValue.length = true then
        (restoreOriginalValues s m.address).2 else s) := by
  unfold updateQuickPatch
  rw [if_pos ⟨rfl, hty⟩]

theorem updateQuickPatch_hexZero (m : QuickPatchMapping) (s : DQPState) (v : List Nat)
    (hty : m.type = QuickPatchType.QPTYPE_HEX_RAW)
    (hsh : s.shadow m.address = some v) (hvge : m.hexValue.length ≤ v.length)
    (h0 : m.address ≠ 0) (hlim : m.address + v.length < ADDR_LIMIT) :
    updateQuickPatch m 0 s = { s with mem := writeBytes s.mem m.address v } := by
  rw [updateQuickPatch_deact_eq m s hty]
  have hhas : hasOriginalValues s m.address m.hexValue.length = true := by
    rw [hasOriginalValues_some s _ _ v hsh]
    simpa using hvge
  rw [if_pos hhas, restoreOriginalValues_eq s m.address v hsh h0 hlim]

theorem storeOriginalValues_shadow_other (s : DQPState) (address length a : Nat)
    (ha : a ≠ address) :
    (storeOriginalValues s address length).shadow a = s.shadow a := by
  unfold storeOriginalValues
  split
  · rfl
  · split
    · rfl
    · dsimp only
      rw [if_neg ha]

theorem storeWrite_shadow_other (s : DQPState) (address length : Nat) (bytes : List Nat)
    (a : Nat) (ha : a ≠ address) :
    (storeWrite s address length bytes).shadow a = s.shadow a := by
  unfold storeWrite
  dsimp only
  split
  · rfl
  · exact storeOriginalValues_shadow_other s address length a ha

theorem patchBytes_zero_not_hex (m : QuickPatchMapping) (j : Nat)
    (hty : m.type ≠ QuickPatchType.QPTYPE_HEX_RAW) :
    (patchBytes m 0).getD j 0 = 0 := by
  rcases h : m.type with _ | _ | _
  · have hb : patchBytes m 0 = [0] := by
      unfold patchBytes
      rw [h]
      show [byteOfInt (max DQP_INT8_MIN (min DQP_INT8_MAX 0))] = [0]
      decide
    rw [hb]
    rcases j with _ | j
    · rfl
    · rfl
  · have hb : patchBytes m 0 = [0, 0, 0, 0] := by
      unfold patchBytes
      rw [h]
      show int32Bytes 0 = [0, 0, 0, 0]
      decide
    rw [hb]
    rcases j with _ | _ | _ | _ | j
    · rfl
    · rfl
    · rfl
    · rfl
    · rfl
  · exact absurd h hty

theorem zeroValueByte_hex (s : DQPState) (m : QuickPatchMapping) (j : Nat) (v : List Nat)
    (hty : m.type = QuickPatchType.QPTYPE_HEX_RAW)
    (hsh : s.shadow m.address = some v) :
    zeroValueByte s m j = v.getD j 0 := by
  unfold zeroValueByte
  rw [hty, hsh]
  rfl

theorem zeroValueByte_not_hex (s : DQPState) (m : QuickPatchMapping) (j : Nat)
    (hty : m.type ≠ QuickPatchType.QPTYPE_HEX_RAW) :
    zeroValueByte s m j = 0 := by
  unfold zeroValueByte
  rcases h : m.type with _ | _ | _
  · rfl
  · rfl
  · exact absurd h hty

end DynamicQuickPatch

/- ===================== claims C1, C2 (Memory Patcher shadows) ===================== -/

namespace DynamicQuickPatch

/-- Claim C1, counterexample: the first patch write to address 100 (an I8
write) captures a 1-byte shadow `[0]`; a later I32 write through a second
mapping at the same address needs 4 bytes, so `storeOriginalValues`
replaces the stored shadow with the 4 bytes then in memory — including
the already patched byte 5.  This refutes both "its byte count equals the
number of bytes that first write required" and "no later write … replaces
or modifies the stored shadow bytes". -/
theorem C1_counterexample :
    (updateQuickPatch ⟨1, 100, QuickPatchType.QPTYPE_8BIT, [], true⟩ 5
        ⟨fun _ => 0, fun _ => none⟩).shadow 100 = some [0] ∧
    (updateQuickPatch ⟨2, 100, QuickPatchType.QPTYPE_32BIT, [], true⟩ 7
        (updateQuickPatch ⟨1, 100, QuickPatchType.QPTYPE_8BIT, [], true⟩ 5
          ⟨fun _ => 0, fun _ => none⟩)).shadow 100 = some [5, 0, 0, 0] := by
  constructor
  · decide
  · decide

/-- Claim C1 (amended): for a mapping with a valid address, (i) a write
finding a stored shadow of at least its own byte count leaves the whole
shadow table unchanged; (ii) a value-0 raw-hex update never touches the
shadow table; (iii) a write NOT covered by the stored shadow (no entry, or
an entry with fewer bytes than the write requires) captures the bytes
currently in memory as the new shadow — so the shadow holds exactly the
byte count of the capturing write, but a later longer write re-captures
it; (iv) no write touches shadow entries of other addresses; and (v) a
new-game event clears the whole shadow table. -/
theorem C1_shadow_lifecycle (m : QuickPatchMapping) (value : Int) (s : DQPState)
    (h0 : m.address ≠ 0) (hlim : m.address + patchSize m < ADDR_LIMIT) :
    (hasOriginalValues s m.address (patchSize m) = true →
      (updateQuickPatch m value s).shadow = s.shadow) ∧
    (value = 0 ∧ m.type = QuickPatchType.QPTYPE_HEX_RAW →
      (updateQuickPatch m value s).shadow = s.shadow) ∧
    (hasOriginalValues s m.address (patchSize m) = false →
      ¬(value = 0 ∧ m.type = QuickPatchType.QPTYPE_HEX_RAW) →
      (updateQuickPatch m value s).shadow m.address =
        some (readBytes s.mem m.address (patchSize m))) ∧
    (∀ a, a ≠ m.address → (updateQuickPatch m value s).shadow a = s.shadow a) ∧
    (∀ ms t a, (onNewGame ms t).shadow a = none) := by
  have hdeactShadow : ∀ hty : m.type = QuickPatchType.QPTYPE_HEX_RAW,
      (updateQuickPatch m 0 s).shadow = s.shadow := by
    intro hty
    rw [updateQuickPatch_deact_eq m s hty]
    split
    · rw [restoreOriginalValues_shadow]
    · rfl
  refine ⟨?_, ?_, ?_, ?_, ?_⟩
  · intro hhas
    by_cases hdeact : value = 0 ∧ m.type = QuickPatchType.QPTYPE_HEX_RAW
    · rw [hdeact.1]
      exact hdeactShadow hdeact.2
    · rw [updateQuickPatch_eq_storeWrite m value s h0 hlim hdeact]
      exact storeWrite_shadow_has s m.address (patchSize m) _ hhas
  · intro hdeact
    rw [hdeact.1]
    exact hdeactShadow hdeact.2
  · intro hhas hdeact
    rw [updateQuickPatch_eq_storeWrite m value s h0 hlim hdeact]
    rw [storeWrite_shadow_new s m.address (patchSize m) _ hhas h0 hlim]
    simp
  · intro a ha
    by_cases hdeact : value = 0 ∧ m.type = QuickPatchType.QPTYPE_HEX_RAW
    · rw [hdeact.1, hdeactShadow hdeact.2]
    · rw [updateQuickPatch_eq_storeWrite m value s h0 hlim hdeact]
      by_cases hhas : hasOriginalValues s m.address (patchSize m) = true
      · rw [storeWrite_shadow_has s m.address (patchSize m) _ hhas]
      · rw [storeWrite_shadow_new s m.address (patchSize m) _ (by simpa using hhas) h0 hlim]
        simp [ha]
  · intro ms t a
    exact onNewGame_shadow ms t a

/-- Witness for `C1_shadow_lifecycle` at a concrete raw-hex mapping with a
valid address and an empty shadow table: the first write captures the two
bytes currently in memory. -/
theorem C1_shadow_lifecycle_witness :
    (⟨9, 200, QuickPatchType.QPTYPE_HEX_RAW, [171, 205], false⟩ :
        QuickPatchMapping).address ≠ 0 ∧
    (⟨9, 200, QuickPatchType.QPTYPE_HEX_RAW, [171, 205], false⟩ :
        QuickPatchMapping).address +
      patchSize ⟨9, 200, QuickPatchType.QPTYPE_HEX_RAW, [171, 205], false⟩ < ADDR_LIMIT ∧
    (updateQuickPatch ⟨9, 200, QuickPatchType.QPTYPE_HEX_RAW, [171, 205], false⟩ 1
        ⟨fun a => a % 7, fun _ => none⟩).shadow 200 =
      some (readBytes (fun a => a % 7) 200 2) := by
  refine ⟨by decide, by decide, ?_⟩
  have h := (C1_shadow_lifecycle ⟨9, 200, QuickPatchType.QPTYPE_HEX_RAW, [171, 205], false⟩ 1
    ⟨fun a => a % 7, fun _ => none⟩ (by decide) (by decide)).2.2.1 (by decide) (by decide)
  exact h

/-- Claim C2, counterexample: with an I8 mapping and an I32 mapping at the
same address 100, the session "write 5 through the I8 patch, then 7
through the I32 patch" followed by `onNewGame` does NOT restore the
pre-session byte at address 100: the I32 write re-captured the shadow
after the I8 patch had already changed the byte, so new-game restores 5
instead of the original 0. -/
theorem C2_counterexample :
    (onNewGame
        [⟨1, 100, QuickPatchType.QPTYPE_8BIT, [], true⟩,
         ⟨2, 100, QuickPatchType.QPTYPE_32BIT, [], true⟩]
        (runSession
          [⟨1, 100, QuickPatchType.QPTYPE_8BIT, [], true⟩,
           ⟨2, 100, QuickPatchType.QPTYPE_32BIT, [], true⟩]
          [(1, 5), (2, 7)]
          ⟨fun _ => 0, fun _ => none⟩)).mem 100 = 5 ∧
    (⟨fun _ => 0, fun _ => none⟩ : DQPState).mem 100 = 0 := by
  constructor
  · decide
  · decide

/-- Claim C2 (amended): for any session of patch writes starting from an
empty shadow table, `onNewGame` leaves the shadow table empty and restores
every host byte to its pre-session value, PROVIDED the mapping table is
well-formed: all addresses valid and non-zero, mappings sharing an address
requiring the same byte count, and regions of distinct addresses disjoint
(the counterexample shows the claim fails without the equal-size
condition). -/
theorem C2_roundtrip (ms : List QuickPatchMapping) (hcfg : GoodConfig ms)
    (s0 : DQPState) (hsh : ∀ a, s0.shadow a = none) (events : List (Int × Int)) :
    (∀ a, (onNewGame ms (runSession ms events s0)).mem a = s0.mem a) ∧
    (∀ a, (onNewGame ms (runSession ms events s0)).shadow a = none) := by
  have hinv0 : OrigInv s0 s0 ms := by
    refine ⟨fun a _ => rfl, ?_, fun m _ _ => rfl⟩
    intro m _ v hv
    rw [hsh] at hv
    exact absurd hv (by simp)
  have hinv := runSession_preserves s0 ms hcfg events s0 hinv0
  exact ⟨fun a => onNewGame_mem s0 _ ms hcfg hinv a, fun a => onNewGame_shadow ms _ a⟩

/-- Witness for `C2_roundtrip`: a two-mapping table (an I8 patch at 100
and a two-byte raw-hex patch at 200) satisfies `GoodConfig`, and after a
concrete session writing both patches (and deactivating the raw one), a
new-game event restores byte 100 and byte 200 to their pre-session values
and clears the shadow at 100. -/
theorem C2_roundtrip_witness :
    GoodConfig
      [⟨1, 100, QuickPatchType.QPTYPE_8BIT, [], true⟩,
       ⟨2, 200, QuickPatchType.QPTYPE_HEX_RAW, [7, 7], true⟩] ∧
    (onNewGame
        [⟨1, 100, QuickPatchType.QPTYPE_8BIT, [], true⟩,
         ⟨2, 200, QuickPatchType.QPTYPE_HEX_RAW, [7, 7], true⟩]
        (runSession
          [⟨1, 100, QuickPatchType.QPTYPE_8BIT, [], true⟩,
           ⟨2, 200, QuickPatchType.QPTYPE_HEX_RAW, [7, 7], true⟩]
          [(1, 99), (2, 1), (2, 0)]
          ⟨fun a => a % 3, fun _ => none⟩)).mem 100 = (fun a => a % 3 : Nat → Nat) 100 ∧
    (onNewGame
        [⟨1, 100, QuickPatchType.QPTYPE_8BIT, [], true⟩,
         ⟨2, 200, QuickPatchType.QPTYPE_HEX_RAW, [7, 7], true⟩]
        (runSession
          [⟨1, 100, QuickPatchType.QPTYPE_8BIT, [], true⟩,
           ⟨2, 200, QuickPatchType.QPTYPE_HEX_RAW, [7, 7], true⟩]
          [(1, 99), (2, 1), (2, 0)]
          ⟨fun a => a % 3, fun _ => none⟩)).shadow 100 = none := by
  refine ⟨by decide, ?_, ?_⟩
  · exact (C2_roundtrip _ (by decide) ⟨fun a => a % 3, fun _ => none⟩ (fun a => rfl)
      [(1, 99), (2, 1), (2, 0)]).1 100
  · exact (C2_roundtrip _ (by decide) ⟨fun a => a % 3, fun _ => none⟩ (fun a => rfl)
      [(1, 99), (2, 1), (2, 0)]).2 100

end DynamicQuickPatch

/- ===================== claims C7, C8 (write contracts) ===================== -/

namespace DynamicQuickPatch

/-- Claim C8: for an I8 mapping with a valid address and ANY variable
value, the byte actually stored is the value clamped to `[-127, 127]`, so
the patched byte read back as a signed 8-bit value always lies in
`[-127, 127]`. -/
theorem C8_i8_clamp (s : DQPState) (m : QuickPatchMapping) (value : Int)
    (hty : m.type = QuickPatchType.QPTYPE_8BIT)
    (h0 : m.address ≠ 0) (hlim : m.address + 1 < ADDR_LIMIT) :
    sint8 ((updateQuickPatch m value s).mem m.address) =
      max DQP_INT8_MIN (min DQP_INT8_MAX value) ∧
    -127 ≤ sint8 ((updateQuickPatch m value s).mem m.address) ∧
    sint8 ((updateQuickPatch m value s).mem m.address) ≤ 127 := by
  have hps : patchSize m = 1 := by unfold patchSize; rw [hty]
  have hdeact : ¬(value = 0 ∧ m.type = QuickPatchType.QPTYPE_HEX_RAW) := by
    rw [hty]; simp
  have hpb : patchBytes m value = [byteOfInt (max DQP_INT8_MIN (min DQP_INT8_MAX value))] := by
    unfold patchBytes
    rw [hty]
  have hmem : (updateQuickPatch m value s).mem =
      writeBytes s.mem m.address
        [byteOfInt (max DQP_INT8_MIN (min DQP_INT8_MAX value))] := by
    rw [updateQuickPatch_eq_storeWrite m value s h0 (by rw [hps]; exact hlim) hdeact,
      storeWrite_mem, hpb]
  have hat : (updateQuickPatch m value s).mem m.address =
      byteOfInt (max DQP_INT8_MIN (min DQP_INT8_MAX value)) := by
    rw [hmem]
    have := writeBytes_inside s.mem m.address
      [byteOfInt (max DQP_INT8_MIN (min DQP_INT8_MAX value))] 0 (by simp)
    simpa using this
  have hclamp1 : -127 ≤ max DQP_INT8_MIN (min DQP_INT8_MAX value) := by
    unfold DQP_INT8_MIN DQP_INT8_MAX
    omega
  have hclamp2 : max DQP_INT8_MIN (min DQP_INT8_MAX value) ≤ 127 := by
    unfold DQP_INT8_MIN DQP_INT8_MAX
    omega
  have hsint : ∀ v : Int, -127 ≤ v → v ≤ 127 → sint8 (byteOfInt v) = v := by
    intro v hv1 hv2
    unfold sint8 byteOfInt
    rcases le_or_lt 0 v with hv | hv
    · have hmod : v % 256 = v := by omega
      rw [hmod]
      rw [if_pos (by omega)]
      omega
    · have hmod : v % 256 = v + 256 := by omega
      rw [hmod]
      rw [if_neg (by omega)]
      omega
  rw [hat, hsint _ hclamp1 hclamp2]
  exact ⟨rfl, hclamp1, hclamp2⟩

/-- Witness for `C8_i8_clamp`: writing the far out-of-range value 200
through an I8 mapping stores the clamped signed value 127 (the claim's
own example `set(10, 200)` at address `0x496AC7`). -/
theorem C8_i8_clamp_witness :
    sint8 ((updateQuickPatch ⟨10, 4811463, QuickPatchType.QPTYPE_8BIT, [], true⟩ 200
        ⟨fun _ => 33, fun _ => none⟩).mem 4811463) = 127 := by
  have h := (C8_i8_clamp ⟨fun _ => 33, fun _ => none⟩
    ⟨10, 4811463, QuickPatchType.QPTYPE_8BIT, [], true⟩ 200 (by decide) (by decide)
    (by decide)).1
  rw [h]
  decide

theorem onSetVariable_zero_go (ms : List QuickPatchMapping) (id : Int) (s : DQPState)
    (hval : ∀ m ∈ ms, m.variableId = id →
      m.address ≠ 0 ∧ m.address + patchSize m < ADDR_LIMIT ∧ 0 < patchSize m)
    (hshadow : ∀ m ∈ ms, m.variableId = id → m.type = QuickPatchType.QPTYPE_HEX_RAW →
      (s.shadow m.address).isSome = true ∧
      ((s.shadow m.address).getD []).length = patchSize m)
    (hdisj : ∀ m ∈ ms, ∀ m' ∈ ms, m.variableId = id → m'.variableId = id → m ≠ m' →
      m.address + patchSize m ≤ m'.address ∨ m'.address + patchSize m' ≤ m.address) :
    ∀ (rest : List QuickPatchMapping) (t : DQPState),
      (∀ m ∈ rest, m ∈ ms) →
      (∀ m ∈ ms, m.variableId = id → m.type = QuickPatchType.QPTYPE_HEX_RAW →
        t.shadow m.address = s.shadow m.address) →
      ((∀ m ∈ ms, m.variableId = id →
        (∀ j, j < patchSize m → t.mem (m.address + j) = zeroValueByte s m j) →
        ∀ j, j < patchSize m →
          (rest.foldl (fun acc mm =>
            if mm.variableId = id then updateQuickPatch mm 0 acc else acc) t).mem
            (m.address + j) = zeroValueByte s m j) ∧
      (∀ m ∈ rest, m.variableId = id →
        ∀ j, j < patchSize m →
          (rest.foldl (fun acc mm =>
            if mm.variableId = id then updateQuickPatch mm 0 acc else acc) t).mem
            (m.address + j) = zeroValueByte s m j)) := by
  intro rest
  induction rest with
  | nil =>
    intro t _ _
    exact ⟨fun m _ _ hP => hP, fun m hm => nomatch hm⟩
  | cons mh rest ih =>
    intro t hsub hsh
    by_cases hb : mh.variableId = id
    · have hmh : mh ∈ ms := hsub mh (List.mem_cons_self mh rest)
      obtain ⟨h0, hlim, hpos⟩ := hval mh hmh hb
      have hkey :
          (∀ a, (a < mh.address ∨ mh.address + patchSize mh ≤ a) →
            (updateQuickPatch mh 0 t).mem a = t.mem a) ∧
          (∀ j, j < patchSize mh →
            (updateQuickPatch mh 0 t).mem (mh.address + j) = zeroValueByte s mh j) ∧
          (∀ m ∈ ms, m.variableId = id → m.type = QuickPatchType.QPTYPE_HEX_RAW →
            (updateQuickPatch mh 0 t).shadow m.address = t.shadow m.address) := by
        by_cases hhex : mh.type = QuickPatchType.QPTYPE_HEX_RAW
        · obtain ⟨hisSome, hlen⟩ := hshadow mh hmh hb hhex
          rcases hv : s.shadow mh.address with _ | v
          · rw [hv] at hisSome
            exact absurd hisSome (by simp)
          · rw [hv] at hlen
            have hvlen : v.length = patchSize mh := by simpa using hlen
            have htsh : t.shadow mh.address = some v := by
              rw [hsh mh hmh hb hhex]
              exact hv
            have hps : patchSize mh = mh.hexValue.length := by
              unfold patchSize
              rw [hhex]
            have h1 : updateQuickPatch mh 0 t =
                { t with mem := writeBytes t.mem mh.address v } :=
              updateQuickPatch_hexZero mh t v hhex htsh (by omega) h0 (by omega)
            refine ⟨?_, ?_, ?_⟩
            · intro a ha
              rw [h1]
              exact writeBytes_outside t.mem mh.address v a (by omega)
            · intro j hj
              rw [h1]
              have hw := writeBytes_inside t.mem mh.address v j (by omega)
              exact hw.trans (zeroValueByte_hex s mh j v hhex hv).symm
            · intro m hm hbm htym
              rw [h1]
        · have hdeact : ¬((0 : Int) = 0 ∧ mh.type = QuickPatchType.QPTYPE_HEX_RAW) := by
            intro hc
            exact hhex hc.2
          have h1 : updateQuickPatch mh 0 t =
              storeWrite t mh.address (patchSize mh) (patchBytes mh 0) :=
            updateQuickPatch_eq_storeWrite mh 0 t h0 hlim hdeact
          have hblen : (patchBytes mh 0).length = patchSize mh := patchBytes_length mh 0
          refine ⟨?_, ?_, ?_⟩
          · intro a ha
            rw [h1, storeWrite_mem]
            exact writeBytes_outside t.mem mh.address (patchBytes mh 0) a (by omega)
          · intro j hj
            rw [h1, storeWrite_mem]
            have hw := writeBytes_inside t.mem mh.address (patchBytes mh 0) j (by omega)
            rw [hw, patchBytes_zero_not_hex mh j hhex]
            exact (zeroValueByte_not_hex s mh j hhex).symm
          · intro m hm hbm htym
            have hmm : m ≠ mh := by
              intro he
              rw [he] at htym
              exact hhex htym
            have hd := hdisj m hm mh hmh hbm hb hmm
            obtain ⟨_, _, hposm⟩ := hval m hm hbm
            have hane : m.address ≠ mh.address := by omega
            rw [h1]
            exact storeWrite_shadow_other t mh.address (patchSize mh) (patchBytes mh 0)
              m.address hane
      obtain ⟨K1, K2, K3⟩ := hkey
      have hsh' : ∀ m ∈ ms, m.variableId = id →
          m.type = QuickPatchType.QPTYPE_HEX_RAW →
          (updateQuickPatch mh 0 t).shadow m.address = s.shadow m.address := by
        intro m hm hbm htym
        rw [K3 m hm hbm htym]
        exact hsh m hm hbm htym
      obtain ⟨ihP, ihNew⟩ := ih (updateQuickPatch mh 0 t)
        (fun m hm => hsub m (List.mem_cons_of_mem mh hm)) hsh'
      have hpres : ∀ m ∈ ms, m.variableId = id →
          (∀ j, j < patchSize m → t.mem (m.address + j) = zeroValueByte s m j) →
          ∀ j, j < patchSize m →
            (updateQuickPatch mh 0 t).mem (m.address + j) = zeroValueByte s m j := by
        intro m hm hbm hP
        by_cases hmm : m = mh
        · subst hmm
          exact K2
        · intro j hj
          have hd := hdisj m hm mh hmh hbm hb hmm
          rw [K1 (m.address + j) (by omega)]
          exact hP j hj
      constructor
      · intro m hm hbm hP j hj
        simp only [List.foldl_cons]
        rw [if_pos hb]
        exact ihP m hm hbm (hpres m hm hbm hP) j hj
      · intro m hm hbm j hj
        simp only [List.foldl_cons]
        rw [if_pos hb]
        rcases List.mem_cons.mp hm with hm1 | hm2
        · subst hm1
          exact ihP m hmh hbm K2 j hj
        · exact ihNew m hm2 hbm j hj
    · obtain ⟨ihP, ihNew⟩ := ih t
        (fun m hm => hsub m (List.mem_cons_of_mem mh hm)) hsh
      constructor
      · intro m hm hbm hP j hj
        simp only [List.foldl_cons]
        rw [if_neg hb]
        exact ihP m hm hbm hP j hj
      · intro m hm hbm j hj
        simp only [List.foldl_cons]
        rw [if_neg hb]
        rcases List.mem_cons.mp hm with hm1 | hm2
        · subst hm1
          exact absurd hbm hb
        · exact ihNew m hm2 hbm j hj

/-- Claim C7: when `onSetVariable(id, 0)` fires over an arbitrary mapping
table, every raw-hex mapping bound to `id` has its whole shadowed region
restored byte for byte — independent of the configured payload — while
every I8 mapping and every I32 mapping bound to `id` has a literal zero
written over its entire region (one byte for I8, all four bytes for I32).
Hypotheses: the bound mappings have valid non-zero addresses, every bound
raw-hex mapping has a shadow entry exactly as long as its payload, and the
regions written by distinct bound mappings are pairwise disjoint. -/
theorem C7_zero_value (ms : List QuickPatchMapping) (id : Int) (s : DQPState)
    (hval : ∀ m ∈ ms, m.variableId = id →
      m.address ≠ 0 ∧ m.address + patchSize m < ADDR_LIMIT ∧ 0 < patchSize m)
    (hshadow : ∀ m ∈ ms, m.variableId = id → m.type = QuickPatchType.QPTYPE_HEX_RAW →
      (s.shadow m.address).isSome = true ∧
      ((s.shadow m.address).getD []).length = patchSize m)
    (hdisj : ∀ m ∈ ms, ∀ m' ∈ ms, m.variableId = id → m'.variableId = id → m ≠ m' →
      m.address + patchSize m ≤ m'.address ∨ m'.address + patchSize m' ≤ m.address) :
    (∀ m ∈ ms, m.variableId = id → m.type = QuickPatchType.QPTYPE_HEX_RAW →
      ∀ v, s.shadow m.address = some v →
        ∀ j, j < v.length →
          (onSetVariable ms id 0 s).mem (m.address + j) = v.getD j 0) ∧
    (∀ m ∈ ms, m.variableId = id →
      (m.type = QuickPatchType.QPTYPE_8BIT ∨ m.type = QuickPatchType.QPTYPE_32BIT) →
      ∀ j, j < patchSize m →
        (onSetVariable ms id 0 s).mem (m.address + j) = 0) := by
  have hgo := (onSetVariable_zero_go ms id s hval hshadow hdisj ms s
    (fun m hm => hm) (fun m _ _ _ => rfl)).2
  have hfold : onSetVariable ms id 0 s =
      ms.foldl (fun acc mm =>
        if mm.variableId = id then updateQuickPatch mm 0 acc else acc) s := rfl
  constructor
  · intro m hm hbm htym v hv j hj
    have hlen : v.length = patchSize m := by
      have h2 := (hshadow m hm hbm htym).2
      rw [hv] at h2
      simpa using h2
    have h := hgo m hm hbm j (by omega)
    rw [hfold, h]
    exact zeroValueByte_hex s m j v htym hv
  · intro m hm hbm htym j hj
    have hne : m.type ≠ QuickPatchType.QPTYPE_HEX_RAW := by
      rcases htym with h8 | h32
      · rw [h8]
        decide
      · rw [h32]
        decide
    have h := hgo m hm hbm j hj
    rw [hfold, h]
    exact zeroValueByte_not_hex s m j hne

/-- Witness for `C7_zero_value`: a concrete four-mapping table — raw-hex
patches at 100 (payload 2 bytes, shadow `[11, 22]`) and 200 (payload 1
byte, shadow `[33]`), an I8 patch at 300 and an I32 patch at 400, all on
variable 7 — and `onSetVariable(7, 0)` restores 100↦11 from its shadow,
zeroes the I8 byte 300, and zeroes byte 402 inside the I32 region. -/
theorem C7_zero_value_witness :
    (onSetVariable
      [⟨7, 100, QuickPatchType.QPTYPE_HEX_RAW, [170, 187], true⟩,
       ⟨7, 200, QuickPatchType.QPTYPE_HEX_RAW, [204], true⟩,
       ⟨7, 300, QuickPatchType.QPTYPE_8BIT, [], true⟩,
       ⟨7, 400, QuickPatchType.QPTYPE_32BIT, [], true⟩] 7 0
      ⟨fun _ => 255,
       fun a => if a = 100 then some [11, 22] else if a = 200 then some [33] else none⟩).mem 100
      = 11 ∧
    (onSetVariable
      [⟨7, 100, QuickPatchType.QPTYPE_HEX_RAW, [170, 187], true⟩,
       ⟨7, 200, QuickPatchType.QPTYPE_HEX_RAW, [204], true⟩,
       ⟨7, 300, QuickPatchType.QPTYPE_8BIT, [], true⟩,
       ⟨7, 400, QuickPatchType.QPTYPE_32BIT, [], true⟩] 7 0
      ⟨fun _ => 255,
       fun a => if a = 100 then some [11, 22] else if a = 200 then some [33] else none⟩).mem 300
      = 0 ∧
    (onSetVariable
      [⟨7, 100, QuickPatchType.QPTYPE_HEX_RAW, [170, 187], true⟩,
       ⟨7, 200, QuickPatchType.QPTYPE_HEX_RAW, [204], true⟩,
       ⟨7, 300, QuickPatchType.QPTYPE_8BIT, [], true⟩,
       ⟨7, 400, QuickPatchType.QPTYPE_32BIT, [], true⟩] 7 0
      ⟨fun _ => 255,
       fun a => if a = 100 then some [11, 22] else if a = 200 then some [33] else none⟩).mem 402
      = 0 := by
  have h := C7_zero_value
    [⟨7, 100, QuickPatchType.QPTYPE_HEX_RAW, [170, 187], true⟩,
     ⟨7, 200, QuickPatchType.QPTYPE_HEX_RAW, [204], true⟩,
     ⟨7, 300, QuickPatchType.QPTYPE_8BIT, [], true⟩,
     ⟨7, 400, QuickPatchType.QPTYPE_32BIT, [], true⟩] 7
    ⟨fun _ => 255,
     fun a => if a = 100 then some [11, 22] else if a = 200 then some [33] else none⟩
    (by decide) (by decide) (by decide)
  refine ⟨?_, ?_, ?_⟩
  · have h100 := h.1 ⟨7, 100, QuickPatchType.QPTYPE_HEX_RAW, [170, 187], true⟩
      (by decide) (by decide) (by decide) [11, 22] (by decide) 0 (by decide)
    simpa using h100
  · have h300 := h.2 ⟨7, 300, QuickPatchType.QPTYPE_8BIT, [], true⟩
      (by decide) (by decide) (Or.inl (by decide)) 0 (by decide)
    simpa using h300
  · have h402 := h.2 ⟨7, 400, QuickPatchType.QPTYPE_32BIT, [], true⟩
      (by decide) (by decide) (Or.inr (by decide)) 2 (by decide)
    simpa using h402

end DynamicQuickPatch

/- ===================== lemmas: limit-break arithmetic ===================== -/

namespace LimitBreakCalculate

theorem castMulTrunc_nonneg (x : Int) (m : Frac) (hx : 0 ≤ x)
    (hnum : 0 ≤ m.num) (hden : 0 ≤ m.den) : 0 ≤ castMulTrunc x m :=
  Int.tdiv_nonneg (mul_nonneg hx hnum) hden

theorem castMulTrunc_mono (x y : Int) (m : Frac) (hx : 0 ≤ x) (hxy : x ≤ y)
    (hnum : 0 ≤ m.num) (hden : 0 < m.den) : castMulTrunc x m ≤ castMulTrunc y m := by
  unfold castMulTrunc
  rw [Int.tdiv_eq_ediv (mul_nonneg hx hnum) (le_of_lt hden),
    Int.tdiv_eq_ediv (mul_nonneg (le_trans hx hxy) hnum) (le_of_lt hden)]
  exact Int.ediv_le_ediv hden (mul_le_mul_of_nonneg_right hxy hnum)

theorem castMulTrunc_16_le (m : Frac) (hnum : 0 ≤ m.num) (hden : 0 < m.den)
    (hle : m.num ≤ m.den) : castMulTrunc 16 m ≤ 16 := by
  unfold castMulTrunc
  rw [Int.tdiv_eq_ediv (by omega) (le_of_lt hden)]
  calc 16 * m.num / m.den ≤ 16 * m.den / m.den := Int.ediv_le_ediv hden (by omega)
    _ = 16 := Int.mul_ediv_cancel 16 (ne_of_gt hden)

theorem applyLimitGain_range (hasConfig : Bool) (mode : Int) (m : Frac) (meter gain : Int)
    (h0 : 0 ≤ meter) (h100 : meter ≤ 100) (hg : 0 ≤ gain)
    (hnum : 0 ≤ m.num) (hden : 0 ≤ m.den) :
    0 ≤ applyLimitGain hasConfig mode m meter gain ∧
      applyLimitGain hasConfig mode m meter gain ≤ 100 := by
  unfold applyLimitGain
  split
  · exact ⟨h0, h100⟩
  · split
    · exact ⟨h0, h100⟩
    · have hc := castMulTrunc_nonneg gain m hg hnum hden
      exact ⟨le_min (by omega) (by omega), min_le_left _ _⟩

theorem applyLimitGain_le_add (hasConfig : Bool) (mode : Int) (m : Frac) (meter gain : Int)
    (hg : 0 ≤ gain) (hnum : 0 ≤ m.num) (hden : 0 ≤ m.den) :
    applyLimitGain hasConfig mode m meter gain ≤ meter + castMulTrunc gain m := by
  have hc := castMulTrunc_nonneg gain m hg hnum hden
  unfold applyLimitGain
  split
  · omega
  · split
    · omega
    · exact min_le_right _ _

theorem warriorTargetGain_le_16 (m : Frac) (damage targetMaxHP : Int) :
    warriorTargetGain m damage targetMaxHP ≤ 16 :=
  min_le_left _ _

theorem warriorTargetGain_nonneg (m : Frac) (damage targetMaxHP : Int)
    (hd : 0 ≤ damage) (hh : 0 ≤ targetMaxHP) (hnum : 0 ≤ m.num) (hden : 0 ≤ m.den) :
    0 ≤ warriorTargetGain m damage targetMaxHP := by
  refine le_min (by omega) ?_
  exact Int.tdiv_nonneg (by positivity) (by positivity)

end LimitBreakCalculate

/- ===================== claims C3, C4 (meter gain formulas) ===================== -/

namespace LimitBreakCalculate

/-- Claim C3, counterexample: an actor with equipment multiplier 2.0 in
Healer mode heals two allies by 50 each (summed target max HP 800).  The
claim says the applied gain is `⌊(100·16/800)·2⌋ = 4` (meter 0 → 4), but
the code computes that 4 inside `checkActorHealing` and then
`applyLimitGain` multiplies by the equipment multiplier AGAIN, so the
meter actually goes 0 → 8. -/
theorem C3_counterexample :
    checkActorHealing true 3 ⟨2, 1⟩ [⟨50, 100, 400⟩, ⟨0, 50, 400⟩] 0 = 8 ∧
    ¬ checkActorHealing true 3 ⟨2, 1⟩ [⟨50, 100, 400⟩, ⟨0, 50, 400⟩] 0 = 4 := by
  constructor
  · decide
  · decide

/-- Claim C3 (amended): in Healer mode the gain computed by
`checkActorHealing` is `trunc(totalHealing·16 / totalMaxHP · m)` — the
multiplier already included — and `applyLimitGain` then scales that gain
by the multiplier once more before clamping at 100.  So whenever a healer
event fires (mode 3, healing found, positive summed max HP, positive
computed gain) the meter moves from `meter` to
`min 100 (meter + trunc(trunc(h·16/MaxH·m)·m))`; in the spec's concrete
scenario the meter goes 0 → 8, not 0 → 4. -/
theorem C3_healer_formula (m : Frac) (ts : List HPEntry) (meter : Int)
    (hf : healingFound ts = true) (hM : 0 < totalMaxHP ts)
    (hg : 0 < healerGain ts m) :
    checkActorHealing true 3 m ts meter =
      min 100 (meter + castMulTrunc (healerGain ts m) m) := by
  unfold checkActorHealing
  rw [if_neg (by omega)]
  rw [if_pos ⟨by rw [hf], hM⟩]
  rw [if_pos hg]
  unfold applyLimitGain
  rw [if_neg (by simp)]
  rw [if_neg (by omega)]

/-- Witness for `C3_healer_formula` at the spec's own scenario (two allies
healed by 50, summed max HP 800, multiplier 2.0): the hypotheses hold and
the meter lands on 8. -/
theorem C3_healer_formula_witness :
    healingFound [⟨50, 100, 400⟩, ⟨0, 50, 400⟩] = true ∧
    0 < totalMaxHP [⟨50, 100, 400⟩, ⟨0, 50, 400⟩] ∧
    0 < healerGain [⟨50, 100, 400⟩, ⟨0, 50, 400⟩] ⟨2, 1⟩ ∧
    checkActorHealing true 3 ⟨2, 1⟩ [⟨50, 100, 400⟩, ⟨0, 50, 400⟩] 0 = 8 := by
  refine ⟨by decide, by decide, by decide, ?_⟩
  have h := C3_healer_formula ⟨2, 1⟩ [⟨50, 100, 400⟩, ⟨0, 50, 400⟩] 0
    (by decide) (by decide) (by decide)
  rw [h]
  decide

/-- Claim C4, counterexample: a Warrior-mode actor with equipment
multiplier 2.0 deals 1000 damage to a monster with max HP 100.  The
per-target value is capped at 16, but `applyLimitGain` scales by the
multiplier again, so the single hit adds 32 to the meter — refuting "a
single hit can never add more than 16 to that actor's meter". -/
theorem C4_counterexample :
    checkActorDamageToMonsters true 1 1000 ⟨2, 1⟩ [⟨1100, 100, 100⟩] 0 = 32 ∧
    ¬ checkActorDamageToMonsters true 1 1000 ⟨2, 1⟩ [⟨1100, 100, 100⟩] 0 ≤ 0 + 16 := by
  constructor
  · decide
  · decide

/-- Claim C4 (amended): the per-target contribution is capped at 16 —
`min(16, trunc(d·30/maxHP·m))` — BEFORE the total is scaled by the
equipment multiplier once more inside `applyLimitGain`.  Hence (i) every
per-target gain is at most 16; (ii) a single hit on one monster in
Warrior mode adds at most `trunc(16·m)` to the meter; and (iii) when the
multiplier is at most 1 the original bound of 16 per hit does hold. -/
theorem C4_warrior_cap (m : Frac) (hnum : 0 ≤ m.num) (hden : 0 < m.den) :
    (∀ damage targetMaxHP : Int, warriorTargetGain m damage targetMaxHP ≤ 16) ∧
    (∀ (hasConfig : Bool) (actorMaxHp : Int) (t : HPEntry) (meter : Int),
      checkActorDamageToMonsters hasConfig 1 actorMaxHp m [t] meter ≤
        meter + castMulTrunc 16 m) ∧
    (m.num ≤ m.den →
      ∀ (hasConfig : Bool) (actorMaxHp : Int) (t : HPEntry) (meter : Int),
        checkActorDamageToMonsters hasConfig 1 actorMaxHp m [t] meter ≤ meter + 16) :=
  by
  have hc16 : 0 ≤ castMulTrunc 16 m := castMulTrunc_nonneg 16 m (by omega) hnum (le_of_lt hden)
  have hmain : ∀ (hasConfig : Bool) (actorMaxHp : Int) (t : HPEntry) (meter : Int),
      checkActorDamageToMonsters hasConfig 1 actorMaxHp m [t] meter ≤
        meter + castMulTrunc 16 m := by
    intro hasConfig actorMaxHp t meter
    unfold checkActorDamageToMonsters
    rw [if_neg (by omega)]
    split
    · omega
    · split
      · -- a damaged monster was found; bound the summed per-target gain
        have htot : ∀ total : Int, 0 ≤ total → total ≤ 16 →
            (if 0 < total then applyLimitGain hasConfig 1 m meter total else meter) ≤
              meter + castMulTrunc 16 m := by
          intro total h0 h16
          split
          · calc applyLimitGain hasConfig 1 m meter total ≤ meter + castMulTrunc total m :=
                applyLimitGain_le_add hasConfig 1 m meter total h0 hnum (le_of_lt hden)
              _ ≤ meter + castMulTrunc 16 m := by
                have := castMulTrunc_mono total 16 m h0 h16 hnum hden
                omega
          · omega
        apply htot
        · simp only [List.foldl_cons, List.foldl_nil]
          split
          · split
            · have := warriorTargetGain_nonneg m (damageOf t) t.maxHp (by unfold damageOf; omega)
                (by omega) hnum (le_of_lt hden)
              omega
            · omega
          · omega
        · simp only [List.foldl_cons, List.foldl_nil]
          split
          · split
            · have := warriorTargetGain_le_16 m (damageOf t) t.maxHp
              omega
            · omega
          · omega
      · omega
  refine ⟨fun damage targetMaxHP => warriorTargetGain_le_16 m damage targetMaxHP, hmain, ?_⟩
  intro hle hasConfig actorMaxHp t meter
  have h1 := hmain hasConfig actorMaxHp t meter
  have h2 := castMulTrunc_16_le m hnum hden hle
  omega

/-- Witness for `C4_warrior_cap` with multiplier 1.0: the per-target cap
at the spec's Warrior scenario (300 damage to a 500-max-HP monster), the
single-hit bound, and the multiplier-at-most-1 bound; with multiplier 1
the scenario's meter indeed lands on 16. -/
theorem C4_warrior_cap_witness :
    warriorTargetGain ⟨1, 1⟩ 300 500 ≤ 16 ∧
    checkActorDamageToMonsters true 1 1000 ⟨1, 1⟩ [⟨500, 200, 500⟩] 0 ≤ 0 + castMulTrunc 16 ⟨1, 1⟩ ∧
    checkActorDamageToMonsters true 1 1000 ⟨1, 1⟩ [⟨500, 200, 500⟩] 0 ≤ 0 + 16 ∧
    checkActorDamageToMonsters true 1 1000 ⟨1, 1⟩ [⟨500, 200, 500⟩] 0 = 16 := by
  have h := C4_warrior_cap ⟨1, 1⟩ (by decide) (by decide)
  exact ⟨h.1 300 500, h.2.1 true 1000 ⟨500, 200, 500⟩ 0,
    h.2.2 (by decide) true 1000 ⟨500, 200, 500⟩ 0, by decide⟩

end LimitBreakCalculate

/- ===================== claim C6 (meter range invariant) ===================== -/

namespace LimitBreakCalculate

theorem equipFold_den_pos (table : Int → Option Frac)
    (htable : ∀ e f, table e = some f → 0 < f.den) :
    ∀ (l : List Int) (acc : Frac), 0 < acc.den →
      0 < (l.foldl (fun acc equipId =>
        if 0 < equipId then
          match table equipId with
          | some f => Frac.add acc f
          | none => acc
        else acc) acc).den := by
  intro l
  induction l with
  | nil => intro acc h; exact h
  | cons e rest ih =>
    intro acc h
    simp only [List.foldl_cons]
    apply ih
    split
    · rcases hf : table e with _ | f
      · exact h
      · have := htable e f hf
        unfold Frac.add
        dsimp only
        positivity
    · exact h

/-- Claim C6: every meter-writing operation of the module keeps the meter
inside `[0, 100]`: (i) `applyLimitGain` clamps the sum at 100 and, for a
non-negative gain and multiplier, never drives the meter negative; (ii)
the equipment multiplier is never negative (and its denominator stays
positive for well-formed configuration tables), so the gains the call
sites pass stay non-negative; (iii) `checkActorHealing` and (iv)
`checkActorDamageToMonsters` preserve the range on every path; and (v)
the Limit-use reset writes exactly 0 when it fires and otherwise leaves
the meter alone. -/
theorem C6_meter_range :
    (∀ (hasConfig : Bool) (mode : Int) (m : Frac) (meter gain : Int),
      0 ≤ meter → meter ≤ 100 → 0 ≤ gain → 0 ≤ m.num → 0 ≤ m.den →
      0 ≤ applyLimitGain hasConfig mode m meter gain ∧
        applyLimitGain hasConfig mode m meter gain ≤ 100) ∧
    (∀ (equipIds : List Int) (table : Int → Option Frac),
      0 ≤ (getEquipmentMultiplier equipIds table).num ∧
      ((∀ e f, table e = some f → 0 < f.den) →
        0 < (getEquipmentMultiplier equipIds table).den)) ∧
    (∀ (hasConfig : Bool) (mode : Int) (m : Frac) (ts : List HPEntry) (meter : Int),
      0 ≤ meter → meter ≤ 100 → 0 ≤ m.num → 0 ≤ m.den →
      0 ≤ checkActorHealing hasConfig mode m ts meter ∧
        checkActorHealing hasConfig mode m ts meter ≤ 100) ∧
    (∀ (hasConfig : Bool) (mode actorMaxHp : Int) (m : Frac) (ts : List HPEntry) (meter : Int),
      0 ≤ meter → meter ≤ 100 → 0 ≤ m.num → 0 ≤ m.den →
      0 ≤ checkActorDamageToMonsters hasConfig mode actorMaxHp m ts meter ∧
        checkActorDamageToMonsters hasConfig mode actorMaxHp m ts meter ≤ 100) ∧
    (∀ (isLimitCommand isBasicAttack hasConfig : Bool) (meter : Int),
      ((isLimitCommand = true ∧ isBasicAttack = true ∧ hasConfig = true ∧ 100 ≤ meter) →
        limitActionMeter isLimitCommand isBasicAttack hasConfig meter = 0) ∧
      (0 ≤ meter → meter ≤ 100 →
        0 ≤ limitActionMeter isLimitCommand isBasicAttack hasConfig meter ∧
          limitActionMeter isLimitCommand isBasicAttack hasConfig meter ≤ 100)) := by
  refine ⟨applyLimitGain_range, ?_, ?_, ?_, ?_⟩
  · intro equipIds table
    constructor
    · unfold getEquipmentMultiplier
      dsimp only
      split
      · dsimp only
        omega
      · omega
    · intro htable
      unfold getEquipmentMultiplier
      dsimp only
      split
      · dsimp only
        omega
      · exact equipFold_den_pos table htable equipIds Frac.one (by decide)
  · intro hasConfig mode m ts meter h0 h100 hnum hden
    unfold checkActorHealing
    split
    · exact ⟨h0, h100⟩
    · split
      · dsimp only
        split
        · next hg =>
          exact applyLimitGain_range hasConfig mode m meter _ h0 h100 (le_of_lt hg) hnum hden
        · exact ⟨h0, h100⟩
      · exact ⟨h0, h100⟩
  · intro hasConfig mode actorMaxHp m ts meter h0 h100 hnum hden
    unfold checkActorDamageToMonsters
    split
    · exact ⟨h0, h100⟩
    · split
      · exact ⟨h0, h100⟩
      · split
        · dsimp only
          split
          · next hg =>
            exact applyLimitGain_range hasConfig mode m meter _ h0 h100 (le_of_lt hg) hnum hden
          · exact ⟨h0, h100⟩
        · exact ⟨h0, h100⟩
  · intro isLimitCommand isBasicAttack hasConfig meter
    constructor
    · intro hcond
      unfold limitActionMeter
      rw [if_pos ⟨hcond.1, hcond.2.1, hcond.2.2.1, hcond.2.2.2⟩]
    · intro h0 h100
      unfold limitActionMeter
      split
      · omega
      · exact ⟨h0, h100⟩

/-- Witness for `C6_meter_range` at concrete inputs: a gain of 4 with
multiplier 2.0 on a meter at 95 saturates at exactly 100; the equipment
multiplier over an empty table is non-negative with positive denominator;
the spec's healer scenario started at meter 95 stays in range; and a
Limit use with a full meter resets it to exactly 0. -/
theorem C6_meter_range_witness :
    (0 ≤ applyLimitGain true 3 ⟨2, 1⟩ 95 4 ∧ applyLimitGain true 3 ⟨2, 1⟩ 95 4 ≤ 100) ∧
    (0 ≤ (getEquipmentMultiplier [1, 2, 0, 0, 0] (fun _ => none)).num ∧
      0 < (getEquipmentMultiplier [1, 2, 0, 0, 0] (fun _ => none)).den) ∧
    (0 ≤ checkActorHealing true 3 ⟨2, 1⟩ [⟨50, 100, 400⟩, ⟨0, 50, 400⟩] 95 ∧
      checkActorHealing true 3 ⟨2, 1⟩ [⟨50, 100, 400⟩, ⟨0, 50, 400⟩] 95 ≤ 100) ∧
    (0 ≤ checkActorDamageToMonsters true 1 1000 ⟨2, 1⟩ [⟨1100, 100, 100⟩] 95 ∧
      checkActorDamageToMonsters true 1 1000 ⟨2, 1⟩ [⟨1100, 100, 100⟩] 95 ≤ 100) ∧
    limitActionMeter true true true 100 = 0 := by
  refine ⟨?_, ?_, ?_, ?_, ?_⟩
  · exact C6_meter_range.1 true 3 ⟨2, 1⟩ 95 4 (by decide) (by decide) (by decide)
      (by decide) (by decide)
  · exact ⟨(C6_meter_range.2.1 [1, 2, 0, 0, 0] (fun _ => none)).1,
      (C6_meter_range.2.1 [1, 2, 0, 0, 0] (fun _ => none)).2
        (fun e f h => Option.noConfusion h)⟩
  · exact C6_meter_range.2.2.1 true 3 ⟨2, 1⟩ [⟨50, 100, 400⟩, ⟨0, 50, 400⟩] 95
      (by decide) (by decide) (by decide) (by decide)
  · exact C6_meter_range.2.2.2.1 true 1 1000 ⟨2, 1⟩ [⟨1100, 100, 100⟩] 95
      (by decide) (by decide) (by decide) (by decide)
  · exact (C6_meter_range.2.2.2.2 true true true 100).1 ⟨rfl, rfl, rfl, by decide⟩

end LimitBreakCalculate

/- ===================== claim C5 (ultimate meter derivation) ===================== -/

namespace LimitBreakCalculate

theorem sumFold_shift (cfg : Int → Option Int) (vars : Int → Int) :
    ∀ (l : List Int) (acc : Int),
      l.foldl (fun acc actorId =>
        match cfg actorId with
        | some limitVarId => acc + vars limitVarId
        | none => acc) acc =
      acc + l.foldl (fun acc actorId =>
        match cfg actorId with
        | some limitVarId => acc + vars limitVarId
        | none => acc) 0 := by
  intro l
  induction l with
  | nil => intro acc; simp
  | cons a rest ih =>
    intro acc
    simp only [List.foldl_cons]
    rw [ih]
    conv_rhs => rw [ih]
    rcases h : cfg a with _ | v
    · simp [h]
    · simp only [h]
      ring

theorem sumFold_eq_sum (cfg : Int → Option Int) (vars : Int → Int) :
    ∀ l : List Int,
      l.foldl (fun acc actorId =>
        match cfg actorId with
        | some limitVarId => acc + vars limitVarId
        | none => acc) (0 : Int) =
      (l.map (fun a => ((cfg a).map vars).getD 0)).sum := by
  intro l
  induction l with
  | nil => simp
  | cons a rest ih =>
    simp only [List.foldl_cons]
    rw [sumFold_shift, ih]
    simp only [List.map_cons, List.sum_cons]
    rcases h : cfg a with _ | v
    · simp [h]
    · simp [h]

theorem allMaxCount_flag (cfg : Int → Option Int) (vars : Int → Int) :
    ∀ l : List Int,
      (allMaxCount cfg vars l).1 =
        l.all (fun a =>
          match cfg a with
          | some v => decide (100 ≤ vars v)
          | none => true) := by
  intro l
  induction l with
  | nil => rfl
  | cons a rest ih =>
    rw [List.all_cons]
    rcases hc : cfg a with _ | v
    · have h1 : allMaxCount cfg vars (a :: rest) = allMaxCount cfg vars rest := by
        simp only [allMaxCount, hc]
      rw [h1, ih]
      simp
    · have h1 : allMaxCount cfg vars (a :: rest) =
          (if vars v < 100 then (false, 1) else
            ((allMaxCount cfg vars rest).1, (allMaxCount cfg vars rest).2 + 1)) := by
        simp only [allMaxCount, hc]
      rw [h1]
      dsimp only
      split
      · next hlt =>
        have hd : decide (100 ≤ vars v) = false := by
          simp only [decide_eq_false_iff_not]
          omega
        rw [hd]
        simp
      · next hge =>
        have hd : decide (100 ≤ vars v) = true := by
          simp only [decide_eq_true_eq]
          omega
        rw [hd, ih]
        simp

theorem allMaxCount_count (cfg : Int → Option Int) (vars : Int → Int) :
    ∀ l : List Int, (allMaxCount cfg vars l).1 = true →
      (allMaxCount cfg vars l).2 = l.countP (fun a => (cfg a).isSome) := by
  intro l
  induction l with
  | nil => intro _; rfl
  | cons a rest ih =>
    intro hflag
    rcases hc : cfg a with _ | v
    · have h1 : allMaxCount cfg vars (a :: rest) = allMaxCount cfg vars rest := by
        simp only [allMaxCount, hc]
      rw [h1] at hflag ⊢
      rw [ih hflag]
      simp [List.countP_cons, hc]
    · have h1 : allMaxCount cfg vars (a :: rest) =
          (if vars v < 100 then (false, 1) else
            ((allMaxCount cfg vars rest).1, (allMaxCount cfg vars rest).2 + 1)) := by
        simp only [allMaxCount, hc]
      rw [h1] at hflag ⊢
      split at hflag
      · exact absurd hflag (by simp)
      · next hge =>
        rw [if_neg hge]
        dsimp only at hflag ⊢
        rw [ih hflag]
        simp [List.countP_cons, hc]

end LimitBreakCalculate

namespace LimitBreakCalculate

/-- Claim C5, counterexample: required party size `N = 3`
(`UseFourActorsForUltimate = false`) with a FULL party of four members, of
which only the fourth is configured (meter 90).  The claim's formula sums
all configured party members' meters, giving `⌊90/3⌋ = 30`; the code only
scans battle positions `0..N-1` and writes 0. -/
theorem C5_counterexample :
    updateUltimateLimitBar 50 false [1, 2, 3, 4]
      (fun a => if a = 4 then some 14 else none)
      (fun v => if v = 14 then 90 else 0) = some 0 ∧
    ultimateValueClaimed false [1, 2, 3, 4]
      (fun a => if a = 4 then some 14 else none)
      (fun v => if v = 14 then 90 else 0) = 30 := by
  constructor
  · decide
  · decide

/-- Claim C5 (amended): with the meters of the configured members among
the first `N` party slots in `[0, 100]`, the value the code writes to the
ultimate meter equals the claim's formula restricted to the first `N`
party slots: 0 below the required size; otherwise the floor of the sum of
the configured first-`N` members' meters over `N` (unconfigured slots
contributing 0), forced to 100 exactly when all `N` first slots are
configured and every one of them is at 100. -/
theorem C5_ultimate_refines (ultimateLimitVarId : Int) (useFour : Bool) (party : List Int)
    (cfg : Int → Option Int) (vars : Int → Int)
    (hvar : 0 < ultimateLimitVarId)
    (hrange : ∀ a ∈ party.take (if useFour then 4 else 3),
      0 ≤ ((cfg a).map vars).getD 0 ∧ ((cfg a).map vars).getD 0 ≤ 100) :
    updateUltimateLimitBar ultimateLimitVarId useFour party cfg vars =
      some (ultimateValueAmended useFour party cfg vars) := by
  simp only [updateUltimateLimitBar, ultimateValueAmended]
  rw [if_neg (by omega)]
  by_cases hlen : party.length < (if useFour then 4 else 3 : Nat)
  · rw [if_pos hlen, if_pos hlen]
  · rw [if_neg hlen, if_neg hlen]
    have hNpos : 0 < (if useFour then 4 else 3 : Nat) := by
      cases useFour <;> simp
    have hlenT : (party.take (if useFour then 4 else 3 : Nat)).length =
        (if useFour then 4 else 3 : Nat) := by
      rw [List.length_take]
      omega
    have hsum0 := sumFold_eq_sum cfg vars (party.take (if useFour then 4 else 3 : Nat))
    have hnn : (0 : Int) ≤
        ((party.take (if useFour then 4 else 3 : Nat)).map
          (fun a => ((cfg a).map vars).getD 0)).sum := by
      apply List.sum_nonneg
      intro x hx
      obtain ⟨a, ha, rfl⟩ := List.mem_map.mp hx
      exact (hrange a ha).1
    have hub : ((party.take (if useFour then 4 else 3 : Nat)).map
        (fun a => ((cfg a).map vars).getD 0)).sum ≤
        100 * ((if useFour then 4 else 3 : Nat) : Int) := by
      calc ((party.take (if useFour then 4 else 3 : Nat)).map
            (fun a => ((cfg a).map vars).getD 0)).sum ≤
          ((party.take (if useFour then 4 else 3 : Nat)).map
            (fun a => ((cfg a).map vars).getD 0)).length • (100 : Int) := by
            apply List.sum_le_card_nsmul
            intro x hx
            obtain ⟨a, ha, rfl⟩ := List.mem_map.mp hx
            exact (hrange a ha).2
        _ = 100 * ((if useFour then 4 else 3 : Nat) : Int) := by
            rw [List.length_map, hlenT, nsmul_eq_mul, mul_comm]
    have htd1 : 0 ≤ Int.tdiv
        ((party.take (if useFour then 4 else 3 : Nat)).map
          (fun a => ((cfg a).map vars).getD 0)).sum
        ((if useFour then 4 else 3 : Nat) : Int) :=
      Int.tdiv_nonneg hnn (by positivity)
    have htd2 : Int.tdiv
        ((party.take (if useFour then 4 else 3 : Nat)).map
          (fun a => ((cfg a).map vars).getD 0)).sum
        ((if useFour then 4 else 3 : Nat) : Int) ≤ 100 := by
      rw [Int.tdiv_eq_ediv hnn (by positivity)]
      have hN0 : ((if useFour then 4 else 3 : Nat) : Int) ≠ 0 := by
        cases useFour <;> simp
      have hNpos' : (0 : Int) < ((if useFour then 4 else 3 : Nat) : Int) := by
        cases useFour <;> simp
      calc ((party.take (if useFour then 4 else 3 : Nat)).map
            (fun a => ((cfg a).map vars).getD 0)).sum /
            ((if useFour then 4 else 3 : Nat) : Int) ≤
          100 * ((if useFour then 4 else 3 : Nat) : Int) /
            ((if useFour then 4 else 3 : Nat) : Int) :=
            Int.ediv_le_ediv hNpos' hub
        _ = 100 := Int.mul_ediv_cancel 100 hN0
    have hiff :
        ((allMaxCount cfg vars (party.take (if useFour then 4 else 3 : Nat))).1 = true ∧
          0 < (allMaxCount cfg vars (party.take (if useFour then 4 else 3 : Nat))).2 ∧
          (allMaxCount cfg vars (party.take (if useFour then 4 else 3 : Nat))).2 =
            (if useFour then 4 else 3 : Nat)) ↔
        ((party.take (if useFour then 4 else 3 : Nat)).countP
            (fun a => (cfg a).isSome) = (if useFour then 4 else 3 : Nat) ∧
          (party.take (if useFour then 4 else 3 : Nat)).all
            (fun a => match cfg a with
              | some v => decide (vars v = 100)
              | none => true) = true) := by
      constructor
      · rintro ⟨h1, _, h3⟩
        refine ⟨?_, ?_⟩
        · rw [← allMaxCount_count cfg vars _ h1]
          exact h3
        · rw [List.all_eq_true]
          have h1' := h1
          rw [allMaxCount_flag, List.all_eq_true] at h1'
          intro a ha
          have := h1' a ha
          have hr := hrange a ha
          rcases hc : cfg a with _ | v
          · simp
          · rw [hc] at hr
            simp only [Option.map_some', Option.getD_some] at hr
            beta_reduce at this
            rw [hc] at this
            simp only [decide_eq_true_eq] at this ⊢
            omega
      · rintro ⟨hc1, hc2⟩
        have hflag : (allMaxCount cfg vars
            (party.take (if useFour then 4 else 3 : Nat))).1 = true := by
          rw [allMaxCount_flag, List.all_eq_true]
          rw [List.all_eq_true] at hc2
          intro a ha
          have := hc2 a ha
          rcases hc : cfg a with _ | v
          · simp
          · beta_reduce at this
            rw [hc] at this
            simp only [decide_eq_true_eq] at this ⊢
            omega
        refine ⟨hflag, ?_, ?_⟩
        · rw [allMaxCount_count cfg vars _ hflag, hc1]
          omega
        · rw [allMaxCount_count cfg vars _ hflag, hc1]
    by_cases hcnd : ((party.take (if useFour then 4 else 3 : Nat)).countP
        (fun a => (cfg a).isSome) = (if useFour then 4 else 3 : Nat) ∧
      (party.take (if useFour then 4 else 3 : Nat)).all
        (fun a => match cfg a with
          | some v => decide (vars v = 100)
          | none => true) = true)
    · rw [if_pos (hiff.mpr hcnd), if_pos hcnd]
      decide
    · rw [if_neg (fun h => hcnd (hiff.mp h)), if_neg hcnd]
      rw [hsum0]
      congr 1
      omega
  
end LimitBreakCalculate

namespace LimitBreakCalculate

/-- Witness for `C5_ultimate_refines`: required size 3, party `[1,2,3]`
all configured with meters 100/100/99 — the code writes `⌊299/3⌋ = 99`,
matching the amended formula (and the claim's own example). -/
theorem C5_ultimate_refines_witness :
    (0 : Int) < 50 ∧
    (∀ a ∈ List.take (if false then 4 else 3) [1, 2, 3],
      0 ≤ ((((fun a : Int => if 1 ≤ a ∧ a ≤ 3 then some (10 + a) else none) a).map
        (fun v : Int => if v = 13 then 99 else 100)).getD 0) ∧
      ((((fun a : Int => if 1 ≤ a ∧ a ≤ 3 then some (10 + a) else none) a).map
        (fun v : Int => if v = 13 then 99 else 100)).getD 0) ≤ 100) ∧
    updateUltimateLimitBar 50 false [1, 2, 3]
      (fun a : Int => if 1 ≤ a ∧ a ≤ 3 then some (10 + a) else none)
      (fun v : Int => if v = 13 then 99 else 100) = some 99 := by
  refine ⟨by decide, by decide, ?_⟩
  exact (C5_ultimate_refines 50 false [1, 2, 3]
    (fun a : Int => if 1 ≤ a ∧ a ≤ 3 then some (10 + a) else none)
    (fun v : Int => if v = 13 then 99 else 100) (by decide) (by decide)).trans (by decide)

end LimitBreakCalculate

/- ===================== claims C9, C10 (Direct-Skills) ===================== -/

namespace DirectSkills

theorem onFrame_actorCommandMap (inp : FrameInput) (st : DSState) :
    (onFrame inp st).actorCommandMap =
      (match frameWrite inp with
      | none => st.actorCommandMap
      | some p => fun i => if i = p.1 then some p.2 else st.actorCommandMap i) := by
  unfold onFrame frameWrite
  by_cases h1 : inp.scene ≠ Scene.battle
  · rw [if_pos h1, if_pos h1]
  · rw [if_neg h1, if_neg h1]
    by_cases h2 : (!inp.battleDataExists) = true
    · rw [if_pos h2, if_pos h2]
    · rw [if_neg h2, if_neg h2]
      rcases hh : inp.currentHero with _ | hero
      · rfl
      · dsimp only
        by_cases h3 : hero.isMonster = true
        · rw [if_pos h3, if_pos h3]
        · rw [if_neg h3, if_neg h3]
          rcases hc : hero.battleCommands with _ | cmds
          · rfl
          · dsimp only
            by_cases h4 : inp.selection < 0 ∨ 4 ≤ inp.selection
            · rw [if_pos h4, if_pos h4]
            · rw [if_neg h4, if_neg h4]
              by_cases h5 : cmds.getD inp.selection.toNat 0 ≤ 0
              · rw [if_pos h5, if_pos h5]
              · rw [if_neg h5, if_neg h5]
                by_cases h6 : (st.lastLoggedCommandMap hero.actorId).getD 0 ≠
                    cmds.getD inp.selection.toNat 0
                · rw [if_pos h6]
                · rw [if_neg h6]

/-- Claim C9, counterexample: the claim says a new-game event removes the
stored selection entries, but `direct_skills/main.cpp` exports no
`onNewGame` callback at all, so a new-game event leaves the table — here
holding `1 ↦ 5` — completely untouched. -/
theorem C9_counterexample :
    (onNewGameState
        ⟨fun i => if i = 1 then some 5 else none, fun _ => none⟩).actorCommandMap 1 = some 5 ∧
    ¬ (onNewGameState
        ⟨fun i => if i = 1 then some 5 else none, fun _ => none⟩).actorCommandMap 1 = none := by
  constructor
  · decide
  · decide

/-- Claim C9 (amended): the selection table is written by `onFrame` only
when the scene is a battle, the battle data and command window exist, the
acting hero is an actor with a non-null command array, the selection
index is in `[0, 3]` and the command id read from that slot is positive
(`frameWrite` packages exactly these conditions); when they fail the
table is unchanged.  Once written, an entry persists: no module operation
— `onBattlerActionDone`, and in particular the (absent) new-game handler
— ever removes an entry; `onFrame` can only overwrite an actor's entry
with a fresh positive command id. -/
theorem C9_selection_persistence :
    (∀ (inp : FrameInput) (st : DSState), frameWrite inp = none →
      (onFrame inp st).actorCommandMap = st.actorCommandMap) ∧
    (∀ (inp : FrameInput) (st : DSState) (aid cmd : Int), frameWrite inp = some (aid, cmd) →
      (onFrame inp st).actorCommandMap =
        fun i => if i = aid then some cmd else st.actorCommandMap i) ∧
    (∀ (inp : FrameInput) (st : DSState) (i v : Int), st.actorCommandMap i = some v →
      ∃ w, (onFrame inp st).actorCommandMap i = some w) ∧
    (∀ st : DSState, onBattlerActionDoneState st = st) ∧
    (∀ st : DSState, onNewGameState st = st) := by
  refine ⟨?_, ?_, ?_, fun _ => rfl, fun _ => rfl⟩
  · intro inp st h
    rw [onFrame_actorCommandMap, h]
  · intro inp st aid cmd h
    rw [onFrame_actorCommandMap, h]
  · intro inp st i v h
    rw [onFrame_actorCommandMap]
    rcases hw : frameWrite inp with _ | p
    · exact ⟨v, h⟩
    · dsimp only
      by_cases hi : i = p.1
      · exact ⟨p.2, by rw [if_pos hi]⟩
      · exact ⟨v, by rw [if_neg hi]; exact h⟩

/-- Witness for `C9_selection_persistence`: a battle frame with actor 2
highlighting command slot 1 (command id 7) stores `2 ↦ 7`; an entry `1 ↦ 5`
survives both that frame and the (absent) new-game handling. -/
theorem C9_selection_persistence_witness :
    frameWrite ⟨Scene.battle, true, some ⟨false, 2, some [3, 7, 0, 0]⟩, 1⟩ = some (2, 7) ∧
    (onFrame ⟨Scene.battle, true, some ⟨false, 2, some [3, 7, 0, 0]⟩, 1⟩
        ⟨fun i => if i = 1 then some 5 else none, fun _ => none⟩).actorCommandMap 2 = some 7 ∧
    (onFrame ⟨Scene.battle, true, some ⟨false, 2, some [3, 7, 0, 0]⟩, 1⟩
        ⟨fun i => if i = 1 then some 5 else none, fun _ => none⟩).actorCommandMap 1 = some 5 := by
  refine ⟨by decide, ?_, ?_⟩
  · have h := C9_selection_persistence.2.1
      ⟨Scene.battle, true, some ⟨false, 2, some [3, 7, 0, 0]⟩, 1⟩
      ⟨fun i => if i = 1 then some 5 else none, fun _ => none⟩ 2 7 (by decide)
    rw [congrFun h 2]
    decide
  · obtain ⟨w, hw⟩ := C9_selection_persistence.2.2.1
      ⟨Scene.battle, true, some ⟨false, 2, some [3, 7, 0, 0]⟩, 1⟩
      ⟨fun i => if i = 1 then some 5 else none, fun _ => none⟩ 1 5 (by decide)
    have h := C9_selection_persistence.2.1
      ⟨Scene.battle, true, some ⟨false, 2, some [3, 7, 0, 0]⟩, 1⟩
      ⟨fun i => if i = 1 then some 5 else none, fun _ => none⟩ 2 7 (by decide)
    rw [congrFun h 1]
    decide

/-- Claim C10: whenever the rewriter cannot resolve a positive skill id
for a first-try basic-attack action of an actor — no stored selection,
stored command absent from the command-to-skill map, or an indirect rule
whose variable holds a non-positive value with no configured fallback —
`onDoBattlerAction` returns `true` and leaves every field of the pending
action exactly as it was. -/
theorem C10_no_rewrite (cmdMap defMap : Int → Option Int) (rpgVars : Int → Int)
    (skills : Int → SkillTargetKind) (acm : Int → Option Int) (actorId : Int) (a : Action)
    (hkind : a.kind = ActionKind.basic)
    (hbasic : a.basicActionId = BasicAction.attack ∨ a.basicActionId = BasicAction.doubleAttack)
    (hfail : acm actorId = none ∨
      (∃ c, acm actorId = some c ∧ cmdMap c = none) ∨
      (∃ c v, acm actorId = some c ∧ cmdMap c = some v ∧ v < 0 ∧
        rpgVars (-v) ≤ 0 ∧ defMap c = none)) :
    onDoBattlerAction cmdMap defMap rpgVars skills acm false actorId true (some a) =
      (true, some a) := by
  unfold onDoBattlerAction
  rw [if_neg (by decide)]
  dsimp only
  rw [if_neg (not_not.mpr ⟨hkind, hbasic⟩)]
  rcases hfail with h | ⟨c, h1, h2⟩ | ⟨c, v, h1, h2, h3, h4, h5⟩
  · rw [h]
  · rw [h1]
    dsimp only
    rw [h2]
  · have hskill : getSkillIdForCommand cmdMap defMap rpgVars c = 0 := by
      unfold getSkillIdForCommand
      rw [h2]
      dsimp only
      rw [if_neg (by omega), if_pos h3]
      rw [if_neg (by omega), h5]
    rw [h1]
    dsimp only
    rw [h2]
    dsimp only
    rw [hskill]
    rw [if_neg (by omega)]

/-- Witness for `C10_no_rewrite`: an indirect rule (command 7 stored for
actor 1, mapped to variable 42 holding 0, with no fallback) leaves a
basic-attack action completely unchanged. -/
theorem C10_no_rewrite_witness :
    onDoBattlerAction (fun c => if c = 7 then some (-42) else none) (fun _ => none)
      (fun _ => 0) (fun _ => SkillTargetKind.enemy)
      (fun i => if i = 1 then some 7 else none) false 1 true
      (some ⟨ActionKind.basic, BasicAction.attack, 0, ActionTargetKind.monster, 0⟩) =
      (true, some ⟨ActionKind.basic, BasicAction.attack, 0, ActionTargetKind.monster, 0⟩) := by
  exact C10_no_rewrite (fun c => if c = 7 then some (-42) else none) (fun _ => none)
    (fun _ => 0) (fun _ => SkillTargetKind.enemy)
    (fun i => if i = 1 then some 7 else none) 1
    ⟨ActionKind.basic, BasicAction.attack, 0, ActionTargetKind.monster, 0⟩
    (by decide) (by decide)
    (Or.inr (Or.inr ⟨7, -42, by decide, by decide, by decide, by decide, by decide⟩))

end DirectSkills
